import Mathlib

/-!
Formal model of the single-instrument limit order book implemented in
`src/OrderBook/order_book.cpp`, together with proofs of the specification
properties (price-time priority, aggregate invariants, index consistency,
no-cross after matching, error handling, amend semantics, spread).

Modelling conventions:
* `uint64_t` fields (ids, quantities, timestamps, statistics) are modelled
  as `Nat`; the C++ subtractions that cannot underflow at their call sites
  are modelled with truncated `Nat` subtraction, and the one subtraction the
  source explicitly floors at zero is modelled with the same explicit test.
* `double` prices are modelled as `ℚ` (the source only compares, subtracts
  and takes `min`/`abs` of prices).
* the two `std::map` book sides are modelled as association lists sorted by
  the side's comparator (`std::greater` for bids, `std::less` for asks);
  `order_lookup_` is modelled as the list of registered order ids, and a
  dereference of the stored node pointer is modelled by looking the order up
  in the book side that owns the node (all call sites pass the owning side).
* the wall clock (`get_current_timestamp`) is an injected parameter `now`.
* each `TRADE:` line printed by `execute_trade` is recorded in a `trades`
  event log; the participating orders' prices are recorded with the event so
  that trade properties can be stated after the orders are gone.
* `throw std::runtime_error` is modelled with `Except BookError`; the three
  throw sites of `add_order`/`amend_order` become the three constructors.
-/

/-- `struct Order` from the source (`u64` as `Nat`, `double` as `ℚ`). -/
structure Order where
  order_id : Nat
  is_buy : Bool
  price : ℚ
  quantity : Nat
  timestamp_ns : Nat
  deriving DecidableEq, Repr

/-- `struct PriceLevelData`: aggregate quantity plus the FIFO queue of
resting orders (the doubly linked `head`/`tail` node list is modelled as a
`List Order`, head of the list = head of the queue). -/
structure PriceLevelData where
  total_quantity : Nat
  orders : List Order
  deriving DecidableEq, Repr

/-- A book side: the sorted `std::map` from price to level, as a sorted
association list. -/
abbrev Side := List (ℚ × PriceLevelData)

/-- One `TRADE:` event emitted by `execute_trade` (quantity, trade price,
the two order ids, and — for specification purposes — the prices of the two
orders involved, captured at trade time). -/
structure Trade where
  quantity : Nat
  price : ℚ
  buy_id : Nat
  sell_id : Nat
  buy_price : ℚ
  sell_price : ℚ
  deriving DecidableEq, Repr

/-- The `OrderBook` state: the two sides, the key set of `order_lookup_`,
the two statistics counters, and the log of emitted trades. -/
structure OrderBook where
  bids : Side
  asks : Side
  order_lookup : List Nat
  total_trades : Nat
  total_volume : Nat
  trades : List Trade
  deriving DecidableEq, Repr

/-- The three `throw std::runtime_error` sites of `add_order`/`amend_order`,
as typed errors. -/
inductive BookError where
  | DuplicateId
  | InvalidQuantity
  | InvalidPrice
  deriving DecidableEq, Repr

/-- Bid-side comparator, `std::greater<double>`. -/
def bidCmp (a b : ℚ) : Bool := decide (b < a)

/-- Ask-side comparator, `std::less<double>`. -/
def askCmp (a b : ℚ) : Bool := decide (a < b)

/-- `side.find(p)` on the association-list representation. -/
def listFind : Side → ℚ → Option PriceLevelData
  | [], _ => none
  | (q, lv) :: rest, p => if q = p then some lv else listFind rest p

/-- `side[p] = lv` (insert-or-assign at the comparator's sorted position). -/
def setLevel (cmp : ℚ → ℚ → Bool) : Side → ℚ → PriceLevelData → Side
  | [], p, lv => [(p, lv)]
  | (q, l) :: rest, p, lv =>
    if q = p then (p, lv) :: rest
    else if cmp p q then (p, lv) :: (q, l) :: rest
    else (q, l) :: setLevel cmp rest p lv

/-- `side.find(p)` followed by mutation through the iterator; the identity
when the key is absent (the source guards these updates with
`!= side.end()`). -/
def modifyLevel (side : Side) (p : ℚ) (f : PriceLevelData → PriceLevelData) : Side :=
  side.map (fun e => if e.1 = p then (e.1, f e.2) else e)

/-- `side.erase(level_it)`; keys of a `std::map` are unique, so erasing the
iterator equals filtering the key out. -/
def eraseLevel (side : Side) (p : ℚ) : Side :=
  side.filter (fun e => e.1 != p)

/-- Locate the node with a given order id inside one side (the model of
dereferencing the `OrderNode*` stored in `order_lookup_`, for call sites
where the node belongs to this side). -/
def findOrderInSide : Side → Nat → Option Order
  | [], _ => none
  | (_, lv) :: rest, id =>
    match lv.orders.find? (fun o => o.order_id == id) with
    | some o => some o
    | none => findOrderInSide rest id

/-- Unlinking one node from its level's doubly linked list: removes the
first (in well-formed states, the only) order with the given id. -/
def removeById (orders : List Order) (id : Nat) : List Order :=
  orders.eraseP (fun o => o.order_id == id)

/-- Writing `quantity` through the node pointer, within one queue. -/
def setOrderQty (orders : List Order) (id : Nat) (q : Nat) : List Order :=
  orders.map (fun o => if o.order_id = id then { o with quantity := q } else o)

/-- Writing `quantity` through the node pointer, over a whole side. -/
def sideSetQty (side : Side) (id : Nat) (q : Nat) : Side :=
  side.map (fun e => (e.1, ⟨e.2.total_quantity, setOrderQty e.2.orders id q⟩))

/-- `OrderBook::add_order_to_side` (one definition for both comparator
instantiations; the source duplicates the body for the two map types).
Registers the id in `order_lookup_`, adds the order's quantity to the
level's aggregate, and appends the node at the tail of the level's FIFO. -/
def add_order_to_side (cmp : ℚ → ℚ → Bool) (order : Order) (side : Side)
    (lookup : List Nat) : Side × List Nat :=
  let lv := (listFind side order.price).getD ⟨0, []⟩
  (setLevel cmp side order.price ⟨lv.total_quantity + order.quantity, lv.orders ++ [order]⟩,
   order.order_id :: lookup)

/-- `OrderBook::remove_order_from_side` (again one definition for both map
types). Returns the updated side and lookup, plus the `bool` result. -/
def remove_order_from_side (side : Side) (lookup : List Nat) (order_id : Nat) :
    Side × List Nat × Bool :=
  if lookup.contains order_id then
    match findOrderInSide side order_id with
    | none => (side, lookup, false)
    | some node =>
      match listFind side node.price with
      | none => (side, lookup, false)
      | some level_data =>
        let new_total := if node.quantity ≤ level_data.total_quantity
          then level_data.total_quantity - node.quantity else 0
        let new_orders := removeById level_data.orders order_id
        let side' := if new_orders = [] then eraseLevel side node.price
          else modifyLevel side node.price (fun _ => ⟨new_total, new_orders⟩)
        (side', lookup.erase order_id, true)
  else (side, lookup, false)

/-- `OrderBook::execute_trade`: log the trade, bump the statistics,
decrement both orders' quantities through their node pointers, decrement
both best levels' aggregates, and remove any fully filled order from its
side. `trade_quantity ≤ buy.quantity` and `≤ sell.quantity` at the only
call site, so the `Nat` subtractions are exact there. -/
def execute_trade (st : OrderBook) (buy_order sell_order : Order)
    (trade_quantity : Nat) : OrderBook :=
  let trade_price := min buy_order.price sell_order.price
  let st1 := { st with
    trades := st.trades ++ [Trade.mk trade_quantity trade_price buy_order.order_id
      sell_order.order_id buy_order.price sell_order.price],
    total_trades := st.total_trades + 1,
    total_volume := st.total_volume + trade_quantity }
  let st2 := { st1 with
    bids := sideSetQty st1.bids buy_order.order_id (buy_order.quantity - trade_quantity),
    asks := sideSetQty st1.asks sell_order.order_id (sell_order.quantity - trade_quantity) }
  let st3 := { st2 with
    bids := modifyLevel st2.bids buy_order.price
      (fun lv => ⟨lv.total_quantity - trade_quantity, lv.orders⟩),
    asks := modifyLevel st2.asks sell_order.price
      (fun lv => ⟨lv.total_quantity - trade_quantity, lv.orders⟩) }
  let st4 := if buy_order.quantity - trade_quantity = 0 then
      let r := remove_order_from_side st3.bids st3.order_lookup buy_order.order_id
      { st3 with bids := r.1, order_lookup := r.2.1 }
    else st3
  if sell_order.quantity - trade_quantity = 0 then
    let r := remove_order_from_side st4.asks st4.order_lookup sell_order.order_id
    { st4 with asks := r.1, order_lookup := r.2.1 }
  else st4

/-- One unrolling of the `while` loop of `OrderBook::process_matching`,
with explicit fuel. -/
def matchLoop : Nat → OrderBook → OrderBook
  | 0, st => st
  | fuel + 1, st =>
    match st.bids, st.asks with
    | (best_bid, bid_level) :: _, (best_ask, ask_level) :: _ =>
      if best_bid < best_ask then st
      else
        match bid_level.orders, ask_level.orders with
        | b :: _, s :: _ =>
          matchLoop fuel (execute_trade st b s (min b.quantity s.quantity))
        | _, _ => st
    | _, _ => st

/-- All order ids resting on one side, in book order. -/
def sideIds (side : Side) : List Nat :=
  (side.map (fun e => e.2.orders.map Order.order_id)).flatten

/-- Total number of resting orders across both sides. -/
def numOrders (st : OrderBook) : Nat :=
  (sideIds st.bids).length + (sideIds st.asks).length

/-- `OrderBook::process_matching`. The C++ `while` loop is modelled with
fuel `numOrders st`: in well-formed states every iteration removes at least
one resting order, so this fuel always reaches the loop's own break
condition (proved below). -/
def process_matching (st : OrderBook) : OrderBook :=
  matchLoop (numOrders st) st

/-- `OrderBook::add_order`. -/
def add_order (st : OrderBook) (order : Order) (match_immediately : Bool)
    (now : Nat) : Except BookError OrderBook :=
  if st.order_lookup.contains order.order_id then .error .DuplicateId
  else if order.quantity = 0 then .error .InvalidQuantity
  else if order.price ≤ 0 then .error .InvalidPrice
  else
    let order_with_ts :=
      if order.timestamp_ns = 0 then { order with timestamp_ns := now } else order
    let st1 :=
      if order_with_ts.is_buy then
        let r := add_order_to_side bidCmp order_with_ts st.bids st.order_lookup
        { st with bids := r.1, order_lookup := r.2 }
      else
        let r := add_order_to_side askCmp order_with_ts st.asks st.order_lookup
        { st with asks := r.1, order_lookup := r.2 }
    .ok (if match_immediately then process_matching st1 else st1)

/-- Dereference of `order_lookup_.find(id)->second->order` (the node can be
on either side). -/
def findOrderAny (st : OrderBook) (id : Nat) : Option Order :=
  match findOrderInSide st.bids id with
  | some o => some o
  | none => findOrderInSide st.asks id

/-- `OrderBook::cancel_order`. -/
def cancel_order (st : OrderBook) (order_id : Nat) : OrderBook × Bool :=
  if st.order_lookup.contains order_id then
    match findOrderAny st order_id with
    | none => (st, false)
    | some node =>
      if node.is_buy then
        let r := remove_order_from_side st.bids st.order_lookup order_id
        ({ st with bids := r.1, order_lookup := r.2.1 }, r.2.2)
      else
        let r := remove_order_from_side st.asks st.order_lookup order_id
        ({ st with asks := r.1, order_lookup := r.2.1 }, r.2.2)
  else (st, false)

/-- The fixed epsilon `1e-12` of the amend price comparison. -/
def amendEps : ℚ := 1 / 1000000000000

/-- `OrderBook::amend_order`. In the same-price branch the signed `int64_t`
delta added to the level's aggregate is modelled as `+ new - old` on `Nat`
(exact whenever the aggregate is at least the old quantity, which holds in
every well-formed state). -/
def amend_order (st : OrderBook) (order_id : Nat) (new_price : ℚ)
    (new_quantity : Nat) (match_immediately : Bool) (now : Nat) :
    Except BookError (OrderBook × Bool) :=
  if ¬ st.order_lookup.contains order_id then .ok (st, false)
  else if new_quantity = 0 then .error .InvalidQuantity
  else if new_price ≤ 0 then .error .InvalidPrice
  else
    match findOrderAny st order_id with
    | none => .ok (st, false)
    | some existing_order =>
      if |existing_order.price - new_price| > amendEps then
        let new_order :=
          { existing_order with price := new_price, quantity := new_quantity }
        let c := cancel_order st order_id
        if c.2 = false then .ok (c.1, false)
        else
          match add_order c.1 new_order match_immediately now with
          | .error e => .error e
          | .ok st2 =>
            .ok ((if match_immediately then process_matching st2 else st2), true)
      else
        let st_total :=
          if existing_order.is_buy then
            { st with bids := (modifyLevel st.bids existing_order.price
                (fun lv =>
                  ⟨lv.total_quantity + new_quantity - existing_order.quantity, lv.orders⟩)) }
          else
            { st with asks := (modifyLevel st.asks existing_order.price
                (fun lv =>
                  ⟨lv.total_quantity + new_quantity - existing_order.quantity, lv.orders⟩)) }
        let st' :=
          if existing_order.is_buy then
            { st_total with bids := sideSetQty st_total.bids order_id new_quantity }
          else
            { st_total with asks := sideSetQty st_total.asks order_id new_quantity }
        .ok ((if match_immediately then process_matching st' else st'), true)

/-- `OrderBook::get_best_bid` (`0.0` when the bid side is empty). -/
def get_best_bid (st : OrderBook) : ℚ :=
  match st.bids with
  | [] => 0
  | (p, _) :: _ => p

/-- `OrderBook::get_best_ask` (`0.0` when the ask side is empty). -/
def get_best_ask (st : OrderBook) : ℚ :=
  match st.asks with
  | [] => 0
  | (p, _) :: _ => p

/-- `OrderBook::get_spread`. -/
def get_spread (st : OrderBook) : ℚ :=
  get_best_ask st - get_best_bid st

/-- `OrderBook::order_exists`. -/
def order_exists (st : OrderBook) (id : Nat) : Bool :=
  st.order_lookup.contains id

/-- `OrderBook::match_orders`. -/
def match_orders (st : OrderBook) : OrderBook :=
  process_matching st

/-- One public call on the book. -/
inductive BookOp where
  | add (order : Order) (match_immediately : Bool) (now : Nat)
  | cancel (order_id : Nat)
  | amend (order_id : Nat) (new_price : ℚ) (new_quantity : Nat)
      (match_immediately : Bool) (now : Nat)
  | matchOrders
  deriving Repr

/-- The freshly constructed book (`OrderBook()`): empty sides, empty index,
zero statistics. -/
def emptyBook : OrderBook := ⟨[], [], [], 0, 0, []⟩

/-- Apply one public call; a thrown validation error leaves the book as it
was (the source throws before any mutation). -/
def applyOp (st : OrderBook) (op : BookOp) : OrderBook :=
  match op with
  | .add o m now =>
    match add_order st o m now with
    | .ok st' => st'
    | .error _ => st
  | .cancel id => (cancel_order st id).1
  | .amend id p q m now =>
    match amend_order st id p q m now with
    | .ok r => r.1
    | .error _ => st
  | .matchOrders => match_orders st

/-- Run a sequence of public calls from the empty book. -/
def runOps (ops : List BookOp) : OrderBook :=
  ops.foldl applyOp emptyBook

/-- States reachable from a fresh book by public calls. -/
inductive Reachable : OrderBook → Prop where
  | empty : Reachable emptyBook
  | step : ∀ st op, Reachable st → Reachable (applyOp st op)

/-- A public call that never skips auto-matching. -/
def autoOp : BookOp → Prop
  | .add _ m _ => m = true
  | .amend _ _ _ m _ => m = true
  | _ => True

/-- States reachable from a fresh book by public calls that keep
auto-matching enabled. -/
inductive ReachableAuto : OrderBook → Prop where
  | empty : ReachableAuto emptyBook
  | step : ∀ st op, autoOp op → ReachableAuto st → ReachableAuto (applyOp st op)

/-- Sum of the quantities of the orders in a level's queue. -/
def qsum (lv : PriceLevelData) : Nat :=
  (lv.orders.map Order.quantity).sum

/-- Consistency of one price level: nonempty queue, aggregate equal to the
sum of member quantities, and every member on the right side, at the
level's price, with positive remaining quantity. -/
def levelOK (isBuy : Bool) (p : ℚ) (lv : PriceLevelData) : Prop :=
  lv.orders ≠ [] ∧ lv.total_quantity = qsum lv ∧
    ∀ o ∈ lv.orders, o.is_buy = isBuy ∧ o.price = p ∧ 0 < o.quantity

/-- All order ids resting in the book. -/
def allIds (st : OrderBook) : List Nat :=
  sideIds st.bids ++ sideIds st.asks

/-- The price keys of a side, in book order. -/
def sideKeys (side : Side) : List ℚ :=
  side.map Prod.fst

/-- A strict total order presented as a boolean comparator (what
`std::map` requires of its comparator). -/
def StrictCmp (cmp : ℚ → ℚ → Bool) : Prop :=
  (∀ a, cmp a a = false) ∧
  (∀ a b c, cmp a b = true → cmp b c = true → cmp a c = true) ∧
  (∀ a b : ℚ, a ≠ b → cmp a b = true ∨ cmp b a = true)

/-- Well-formedness of one side: keys strictly sorted by the side's
comparator and every level consistent. -/
def SideOK (cmp : ℚ → ℚ → Bool) (isBuy : Bool) (side : Side) : Prop :=
  (sideKeys side).Pairwise (fun a b => cmp a b = true) ∧
  ∀ e ∈ side, levelOK isBuy e.1 e.2

/-- Well-formedness of a book state: both sides well formed, all resting
ids distinct, and the order index holding exactly the resting ids. -/
def WF (st : OrderBook) : Prop :=
  SideOK bidCmp true st.bids ∧
  SideOK askCmp false st.asks ∧
  (allIds st).Nodup ∧
  st.order_lookup.Nodup ∧
  (∀ i ∈ st.order_lookup, i ∈ allIds st) ∧
  (∀ i ∈ allIds st, i ∈ st.order_lookup)

/-- The no-cross condition: one side empty, or best bid strictly below best
ask. -/
def noCross (st : OrderBook) : Prop :=
  st.bids = [] ∨ st.asks = [] ∨ get_best_bid st < get_best_ask st

/-! ### Basic facts about the comparators and the association-list maps -/

theorem strictCmp_bid : StrictCmp bidCmp := by
  refine ⟨fun a => ?_, fun a b c h1 h2 => ?_, fun a b h => ?_⟩
  · simp [bidCmp]
  · simp only [bidCmp, decide_eq_true_eq] at *
    exact h2.trans h1
  · simp only [bidCmp, decide_eq_true_eq]
    rcases lt_or_gt_of_ne h with h' | h'
    · exact Or.inr h'
    · exact Or.inl h'

theorem strictCmp_ask : StrictCmp askCmp := by
  refine ⟨fun a => ?_, fun a b c h1 h2 => ?_, fun a b h => ?_⟩
  · simp [askCmp]
  · simp only [askCmp, decide_eq_true_eq] at *
    exact h1.trans h2
  · simp only [askCmp, decide_eq_true_eq]
    rcases lt_or_gt_of_ne h with h' | h'
    · exact Or.inl h'
    · exact Or.inr h'

theorem StrictCmp.ne {cmp : ℚ → ℚ → Bool} (h : StrictCmp cmp) {a b : ℚ}
    (hab : cmp a b = true) : a ≠ b := by
  rintro rfl
  rw [h.1 a] at hab
  exact Bool.false_ne_true hab

theorem StrictCmp.not_rev {cmp : ℚ → ℚ → Bool} (h : StrictCmp cmp) {a b : ℚ}
    (hab : cmp a b = true) : cmp b a = false := by
  by_contra hba
  have hba' : cmp b a = true := by
    cases hb : cmp b a
    · exact absurd hb hba
    · rfl
  exact (h.ne (h.2.1 a b a hab hba')) rfl

theorem sideKeys_nil : sideKeys [] = [] := rfl

theorem sideKeys_cons (e : ℚ × PriceLevelData) (side : Side) :
    sideKeys (e :: side) = e.1 :: sideKeys side := rfl

theorem sideKeys_append (a b : Side) :
    sideKeys (a ++ b) = sideKeys a ++ sideKeys b := by
  simp [sideKeys]

theorem sideIds_nil : sideIds [] = [] := rfl

theorem sideIds_cons (e : ℚ × PriceLevelData) (side : Side) :
    sideIds (e :: side) = e.2.orders.map Order.order_id ++ sideIds side := by
  simp [sideIds]

theorem sideIds_append (a b : Side) :
    sideIds (a ++ b) = sideIds a ++ sideIds b := by
  simp [sideIds]

theorem listFind_mem {side : Side} {p : ℚ} {lv : PriceLevelData}
    (h : listFind side p = some lv) : (p, lv) ∈ side := by
  induction side with
  | nil => simp [listFind] at h
  | cons e rest ih =>
    rw [listFind] at h
    by_cases he : e.1 = p
    · rw [if_pos he] at h
      cases h
      have he2 : (p, e.2) = e := by rw [← he]
      rw [he2]
      exact List.mem_cons_self e rest
    · rw [if_neg he] at h
      exact List.mem_cons_of_mem _ (ih h)

theorem listFind_of_not_mem_keys {side : Side} {p : ℚ}
    (h : p ∉ sideKeys side) : listFind side p = none := by
  induction side with
  | nil => rfl
  | cons e rest ih =>
    rw [sideKeys_cons] at h
    simp only [List.mem_cons, not_or] at h
    rw [listFind, if_neg (fun hc => h.1 hc.symm)]
    exact ih h.2

theorem listFind_of_mem_nodup {side : Side} {p : ℚ} {lv : PriceLevelData}
    (hn : (sideKeys side).Nodup) (h : (p, lv) ∈ side) :
    listFind side p = some lv := by
  induction side with
  | nil => simp at h
  | cons e rest ih =>
    rw [sideKeys_cons] at hn
    rcases List.mem_cons.mp h with h | h
    · rw [← h, listFind, if_pos rfl]
    · have hne : e.1 ≠ p := by
        intro hc
        exact (List.nodup_cons.mp hn).1 (hc ▸ (List.mem_map_of_mem Prod.fst h))
      rw [listFind, if_neg hne]
      exact ih (List.nodup_cons.mp hn).2 h

theorem eraseLevel_of_not_mem {side : Side} {p : ℚ}
    (h : p ∉ sideKeys side) : eraseLevel side p = side := by
  induction side with
  | nil => rfl
  | cons e rest ih =>
    rw [sideKeys_cons] at h
    simp only [List.mem_cons, not_or] at h
    have hb : (e.1 != p) = true := by
      simp only [bne_iff_ne, ne_eq]
      exact fun hc => h.1 hc.symm
    rw [eraseLevel] at ih ⊢
    rw [List.filter_cons, if_pos hb, ih h.2]

theorem eraseLevel_split {pre post : Side} {p : ℚ} {l : PriceLevelData}
    (hpre : p ∉ sideKeys pre) (hpost : p ∉ sideKeys post) :
    eraseLevel (pre ++ (p, l) :: post) p = pre ++ post := by
  have h1 := eraseLevel_of_not_mem hpre
  have h2 := eraseLevel_of_not_mem hpost
  rw [eraseLevel] at h1 h2 ⊢
  rw [List.filter_append, List.filter_cons]
  simp only [bne_self_eq_false, Bool.false_eq_true, if_false]
  rw [h1, h2]

theorem modifyLevel_of_not_mem {side : Side} {p : ℚ}
    {f : PriceLevelData → PriceLevelData} (h : p ∉ sideKeys side) :
    modifyLevel side p f = side := by
  induction side with
  | nil => rfl
  | cons e rest ih =>
    rw [sideKeys_cons] at h
    simp only [List.mem_cons, not_or] at h
    rw [modifyLevel] at ih ⊢
    rw [List.map_cons, if_neg (fun hc => h.1 hc.symm), ih h.2]

theorem modifyLevel_split {pre post : Side} {p : ℚ} {l : PriceLevelData}
    {f : PriceLevelData → PriceLevelData}
    (hpre : p ∉ sideKeys pre) (hpost : p ∉ sideKeys post) :
    modifyLevel (pre ++ (p, l) :: post) p f = pre ++ (p, f l) :: post := by
  have h1 := @modifyLevel_of_not_mem pre p f hpre
  have h2 := @modifyLevel_of_not_mem post p f hpost
  rw [modifyLevel] at h1 h2 ⊢
  rw [List.map_append, List.map_cons, if_pos rfl]
  rw [h1, h2]

theorem sideKeys_modifyLevel (side : Side) (p : ℚ)
    (f : PriceLevelData → PriceLevelData) :
    sideKeys (modifyLevel side p f) = sideKeys side := by
  induction side with
  | nil => rfl
  | cons e rest ih =>
    rw [modifyLevel] at *
    rw [List.map_cons]
    by_cases he : e.1 = p
    · rw [if_pos he, sideKeys_cons, sideKeys_cons, ih]
    · rw [if_neg he, sideKeys_cons, sideKeys_cons, ih]

/-- Keys of a side sorted strictly by a comparator. -/
def SortedKeys (cmp : ℚ → ℚ → Bool) (side : Side) : Prop :=
  (sideKeys side).Pairwise (fun a b => cmp a b = true)

theorem listFind_append (a b : Side) (p : ℚ) :
    listFind (a ++ b) p =
      match listFind a p with
      | some lv => some lv
      | none => listFind b p := by
  induction a with
  | nil => simp [listFind]
  | cons e rest ih =>
    by_cases he : e.1 = p
    · rw [List.cons_append, listFind, listFind, if_pos he, if_pos he]
    · rw [List.cons_append, listFind, listFind, if_neg he, if_neg he, ih]

theorem sorted_mem_split {cmp : ℚ → ℚ → Bool} {side : Side} {p : ℚ}
    {l0 : PriceLevelData} (hsc : StrictCmp cmp) (hs : SortedKeys cmp side)
    (hmem : (p, l0) ∈ side) :
    ∃ pre post, side = pre ++ (p, l0) :: post ∧
      (∀ q ∈ sideKeys pre, cmp q p = true) ∧
      (∀ q ∈ sideKeys post, cmp p q = true) ∧
      p ∉ sideKeys pre ∧ p ∉ sideKeys post := by
  obtain ⟨pre, post, rfl⟩ := List.append_of_mem hmem
  refine ⟨pre, post, rfl, ?_, ?_, ?_, ?_⟩
  · intro q hq
    rw [SortedKeys, sideKeys_append, sideKeys_cons] at hs
    have := (List.pairwise_append.mp hs).2.2
    exact this q hq p (List.mem_cons_self _ _)
  · intro q hq
    rw [SortedKeys, sideKeys_append, sideKeys_cons] at hs
    have := List.pairwise_cons.mp (List.pairwise_append.mp hs).2.1
    exact this.1 q hq
  · intro hq
    rw [SortedKeys, sideKeys_append, sideKeys_cons] at hs
    have := (List.pairwise_append.mp hs).2.2
    exact (hsc.ne (this p hq p (List.mem_cons_self _ _))) rfl
  · intro hq
    rw [SortedKeys, sideKeys_append, sideKeys_cons] at hs
    have := List.pairwise_cons.mp (List.pairwise_append.mp hs).2.1
    exact (hsc.ne (this.1 p hq)) rfl

theorem setLevel_replace {cmp : ℚ → ℚ → Bool} (hsc : StrictCmp cmp)
    {pre post : Side} {p : ℚ} {l0 lv : PriceLevelData}
    (hpre : ∀ q ∈ sideKeys pre, cmp q p = true) :
    setLevel cmp (pre ++ (p, l0) :: post) p lv = pre ++ (p, lv) :: post := by
  induction pre with
  | nil => rw [List.nil_append, setLevel, if_pos rfl, List.nil_append]
  | cons e rest ih =>
    have hq : cmp e.1 p = true := hpre e.1 (List.mem_cons_self _ _)
    have hne : e.1 ≠ p := hsc.ne hq
    have hnc : cmp p e.1 = false := hsc.not_rev hq
    rw [List.cons_append, setLevel]
    rw [if_neg hne, hnc]
    simp only [Bool.false_eq_true, if_false]
    rw [ih (fun q hq2 => hpre q (List.mem_cons_of_mem _ hq2))]
    rfl

theorem setLevel_insert {cmp : ℚ → ℚ → Bool} (hsc : StrictCmp cmp)
    {side : Side} {p : ℚ} {lv : PriceLevelData}
    (hmem : p ∉ sideKeys side) (hs : SortedKeys cmp side) :
    ∃ pre post, side = pre ++ post ∧
      setLevel cmp side p lv = pre ++ (p, lv) :: post ∧
      (∀ q ∈ sideKeys pre, cmp q p = true) ∧
      (∀ q ∈ sideKeys post, cmp p q = true) := by
  induction side with
  | nil => exact ⟨[], [], rfl, rfl, by simp [sideKeys], by simp [sideKeys]⟩
  | cons e rest ih =>
    rw [sideKeys_cons] at hmem
    simp only [List.mem_cons, not_or] at hmem
    have hne : e.1 ≠ p := fun hc => hmem.1 hc.symm
    by_cases hc : cmp p e.1 = true
    · refine ⟨[], e :: rest, rfl, ?_, by simp [sideKeys], ?_⟩
      · rw [setLevel, if_neg hne, hc]
        simp
      · intro q hq
        rw [sideKeys_cons] at hq
        rcases List.mem_cons.mp hq with h | h
        · rw [h]; exact hc
        · rw [SortedKeys, sideKeys_cons] at hs
          exact hsc.2.1 p e.1 q hc ((List.pairwise_cons.mp hs).1 q h)
    · have hrest : SortedKeys cmp rest := by
        rw [SortedKeys, sideKeys_cons] at hs
        exact (List.pairwise_cons.mp hs).2
      obtain ⟨pre, post, heq, hset, hpre, hpost⟩ := ih hmem.2 hrest
      refine ⟨e :: pre, post, by rw [List.cons_append, heq], ?_, ?_, hpost⟩
      · rw [setLevel, if_neg hne]
        have : cmp p e.1 = false := by
          cases h : cmp p e.1
          · rfl
          · exact absurd h hc
        rw [this]
        simp only [Bool.false_eq_true, if_false]
        rw [hset, List.cons_append]
      · intro q hq
        rw [sideKeys_cons] at hq
        rcases List.mem_cons.mp hq with h | h
        · rw [h]
          rcases hsc.2.2 e.1 p hne with h' | h'
          · exact h'
          · exact absurd h' hc
        · exact hpre q h

theorem exists_listFind_of_mem_keys {side : Side} {p : ℚ}
    (h : p ∈ sideKeys side) : ∃ lv, listFind side p = some lv := by
  induction side with
  | nil => simp [sideKeys] at h
  | cons e rest ih =>
    by_cases he : e.1 = p
    · exact ⟨e.2, by rw [listFind, if_pos he]⟩
    · rw [sideKeys_cons] at h
      rcases List.mem_cons.mp h with h' | h'
      · exact absurd h'.symm he
      · obtain ⟨lv, hlv⟩ := ih h'
        exact ⟨lv, by rw [listFind, if_neg he, hlv]⟩

theorem not_mem_keys_of_listFind_none {side : Side} {p : ℚ}
    (h : listFind side p = none) : p ∉ sideKeys side := by
  intro hmem
  obtain ⟨lv, hlv⟩ := exists_listFind_of_mem_keys hmem
  rw [h] at hlv
  cases hlv

theorem add_side_found {cmp : ℚ → ℚ → Bool} (hsc : StrictCmp cmp)
    {side : Side} {lookup : List Nat} {o : Order} {l0 : PriceLevelData}
    (hs : SortedKeys cmp side) (hfind : listFind side o.price = some l0) :
    ∃ pre post, side = pre ++ (o.price, l0) :: post ∧
      o.price ∉ sideKeys pre ∧ o.price ∉ sideKeys post ∧
      (∀ q ∈ sideKeys pre, cmp q o.price = true) ∧
      (∀ q ∈ sideKeys post, cmp o.price q = true) ∧
      add_order_to_side cmp o side lookup =
        (pre ++ (o.price, ⟨l0.total_quantity + o.quantity, l0.orders ++ [o]⟩) :: post,
         o.order_id :: lookup) := by
  obtain ⟨pre, post, heq, hpre, hpost, hnp, hnp2⟩ :=
    sorted_mem_split hsc hs (listFind_mem hfind)
  refine ⟨pre, post, heq, hnp, hnp2, hpre, hpost, ?_⟩
  rw [add_order_to_side, hfind]
  simp only [Option.getD_some]
  rw [heq, setLevel_replace hsc hpre]

theorem add_side_new {cmp : ℚ → ℚ → Bool} (hsc : StrictCmp cmp)
    {side : Side} {lookup : List Nat} {o : Order}
    (hs : SortedKeys cmp side) (hfind : listFind side o.price = none) :
    ∃ pre post, side = pre ++ post ∧
      (∀ q ∈ sideKeys pre, cmp q o.price = true) ∧
      (∀ q ∈ sideKeys post, cmp o.price q = true) ∧
      add_order_to_side cmp o side lookup =
        (pre ++ (o.price, ⟨o.quantity, [o]⟩) :: post, o.order_id :: lookup) := by
  obtain ⟨pre, post, heq, hset, hpre, hpost⟩ :=
    @setLevel_insert cmp hsc side o.price ⟨o.quantity, [o]⟩
      (not_mem_keys_of_listFind_none hfind) hs
  refine ⟨pre, post, heq, hpre, hpost, ?_⟩
  rw [add_order_to_side, hfind]
  simp only [Option.getD_none, Nat.zero_add, List.nil_append]
  rw [hset]

theorem add_side_ok {cmp : ℚ → ℚ → Bool} {isBuy : Bool} {side : Side}
    {lookup : List Nat} {o : Order} (hsc : StrictCmp cmp)
    (hok : SideOK cmp isBuy side) (hbuy : o.is_buy = isBuy) (hq : 0 < o.quantity) :
    SideOK cmp isBuy (add_order_to_side cmp o side lookup).1 ∧
    List.Perm (sideIds (add_order_to_side cmp o side lookup).1)
      (o.order_id :: sideIds side) ∧
    (add_order_to_side cmp o side lookup).2 = o.order_id :: lookup := by
  obtain ⟨hsort, hlev⟩ := hok
  cases hfind : listFind side o.price with
  | some l0 =>
    obtain ⟨pre, post, heq, hnp, hnp2, hpre, hpost, hres⟩ :=
      add_side_found hsc hsort hfind
    have hl0 : levelOK isBuy o.price l0 := hlev _ (listFind_mem hfind)
    have hkeys : sideKeys (pre ++ ((o.price,
        (⟨l0.total_quantity + o.quantity, l0.orders ++ [o]⟩ : PriceLevelData)) :: post)) =
        sideKeys side := by
      rw [heq, sideKeys_append, sideKeys_append, sideKeys_cons, sideKeys_cons]
    refine ⟨⟨?_, ?_⟩, ?_, by rw [hres]⟩
    · show (sideKeys (add_order_to_side cmp o side lookup).1).Pairwise _
      rw [hres]
      show (sideKeys (pre ++ ((o.price,
        (⟨l0.total_quantity + o.quantity, l0.orders ++ [o]⟩ : PriceLevelData)) :: post))).Pairwise _
      rw [hkeys]
      exact hsort
    · intro e he
      rw [hres] at he
      rcases List.mem_append.mp he with h | h
      · exact hlev e (heq ▸ List.mem_append_left _ h)
      · rcases List.mem_cons.mp h with h | h
        · rw [h]
          obtain ⟨hne, htot, hmem⟩ := hl0
          refine ⟨by simp, ?_, ?_⟩
          · show l0.total_quantity + o.quantity = qsum _
            rw [htot]
            simp [qsum]
          · intro x hx
            rcases List.mem_append.mp hx with hx | hx
            · exact hmem x hx
            · rw [List.mem_singleton.mp hx]
              exact ⟨hbuy, rfl, hq⟩
        · exact hlev e (heq ▸ List.mem_append_right _ (List.mem_cons_of_mem _ h))
    · have hids : sideIds (pre ++ ((o.price,
          (⟨l0.total_quantity + o.quantity, l0.orders ++ [o]⟩ : PriceLevelData)) :: post)) =
          (sideIds pre ++ l0.orders.map Order.order_id) ++ (o.order_id :: sideIds post) := by
        simp [sideIds_append, sideIds_cons, List.append_assoc]
      have hids2 : sideIds side =
          (sideIds pre ++ l0.orders.map Order.order_id) ++ sideIds post := by
        rw [heq]
        simp [sideIds_append, sideIds_cons, List.append_assoc]
      rw [hres]
      show List.Perm (sideIds (pre ++ ((o.price,
          (⟨l0.total_quantity + o.quantity, l0.orders ++ [o]⟩ : PriceLevelData)) :: post)))
        (o.order_id :: sideIds side)
      rw [hids, hids2]
      exact List.perm_middle
  | none =>
    obtain ⟨pre, post, heq, hpre, hpost, hres⟩ := add_side_new hsc hsort hfind
    refine ⟨⟨?_, ?_⟩, ?_, by rw [hres]⟩
    · show (sideKeys (add_order_to_side cmp o side lookup).1).Pairwise _
      rw [hres]
      show (sideKeys (pre ++ ((o.price,
          (⟨o.quantity, [o]⟩ : PriceLevelData)) :: post))).Pairwise _
      rw [sideKeys_append, sideKeys_cons, List.pairwise_append]
      rw [heq, sideKeys_append, List.pairwise_append] at hsort
      refine ⟨hsort.1, List.pairwise_cons.mpr ⟨hpost, hsort.2.1⟩, ?_⟩
      intro a ha b hb
      rcases List.mem_cons.mp hb with hb | hb
      · rw [hb]; exact hpre a ha
      · exact hsort.2.2 a ha b hb
    · intro e he
      rw [hres] at he
      rcases List.mem_append.mp he with h | h
      · exact hlev e (heq ▸ List.mem_append_left _ h)
      · rcases List.mem_cons.mp h with h | h
        · rw [h]
          refine ⟨by simp, by simp [qsum], ?_⟩
          intro x hx
          rw [List.mem_singleton.mp hx]
          exact ⟨hbuy, rfl, hq⟩
        · exact hlev e (heq ▸ List.mem_append_right _ h)
    · have hids : sideIds (pre ++ ((o.price,
          (⟨o.quantity, [o]⟩ : PriceLevelData)) :: post)) =
          sideIds pre ++ (o.order_id :: sideIds post) := by
        simp [sideIds_append, sideIds_cons]
      have hids2 : sideIds side = sideIds pre ++ sideIds post := by
        rw [heq, sideIds_append]
      rw [hres]
      show List.Perm (sideIds (pre ++ ((o.price,
          (⟨o.quantity, [o]⟩ : PriceLevelData)) :: post))) (o.order_id :: sideIds side)
      rw [hids, hids2]
      exact List.perm_middle

theorem sortedKeys_nodup {cmp : ℚ → ℚ → Bool} {side : Side}
    (hsc : StrictCmp cmp) (hs : SortedKeys cmp side) : (sideKeys side).Nodup :=
  hs.imp (fun h => hsc.ne h)

theorem findOrderInSide_some {side : Side} {id : Nat} {node : Order}
    (h : findOrderInSide side id = some node) :
    node.order_id = id ∧ ∃ e ∈ side, node ∈ e.2.orders := by
  induction side with
  | nil => simp [findOrderInSide] at h
  | cons e rest ih =>
    rw [findOrderInSide] at h
    cases hf : e.2.orders.find? (fun o => o.order_id == id) with
    | some o =>
      rw [hf] at h
      cases h
      have h1 := List.find?_some hf
      have h2 := List.mem_of_find?_eq_some hf
      refine ⟨by simpa using h1, e, List.mem_cons_self _ _, h2⟩
    | none =>
      rw [hf] at h
      obtain ⟨h1, e', he', hm⟩ := ih h
      exact ⟨h1, e', List.mem_cons_of_mem _ he', hm⟩

theorem exists_findOrderInSide {side : Side} {id : Nat}
    (h : id ∈ sideIds side) : ∃ node, findOrderInSide side id = some node := by
  induction side with
  | nil => simp [sideIds] at h
  | cons e rest ih =>
    rw [sideIds_cons] at h
    rw [findOrderInSide]
    cases hf : e.2.orders.find? (fun o => o.order_id == id) with
    | some o => exact ⟨o, rfl⟩
    | none =>
      rcases List.mem_append.mp h with h' | h'
      · obtain ⟨o, ho, hid⟩ := List.mem_map.mp h'
        have := List.find?_eq_none.mp hf o ho
        simp [hid] at this
      · exact ih h'

theorem findOrderInSide_none {side : Side} {id : Nat}
    (h : findOrderInSide side id = none) : id ∉ sideIds side := by
  intro hmem
  obtain ⟨node, hn⟩ := exists_findOrderInSide hmem
  rw [h] at hn
  cases hn

theorem mem_sideIds_of_mem {side : Side} {e : ℚ × PriceLevelData} {o : Order}
    (he : e ∈ side) (ho : o ∈ e.2.orders) : o.order_id ∈ sideIds side := by
  rw [sideIds, List.mem_flatten]
  exact ⟨e.2.orders.map Order.order_id, List.mem_map_of_mem _ he,
    List.mem_map_of_mem _ ho⟩

theorem order_loc {cmp : ℚ → ℚ → Bool} {isBuy : Bool} {side : Side}
    {e : ℚ × PriceLevelData} {o : Order} (hsc : StrictCmp cmp)
    (hok : SideOK cmp isBuy side) (he : e ∈ side) (ho : o ∈ e.2.orders) :
    o.price = e.1 ∧ o.is_buy = isBuy ∧ 0 < o.quantity ∧
      listFind side o.price = some e.2 := by
  obtain ⟨hb, hp, hq⟩ := (hok.2 e he).2.2 o ho
  refine ⟨hp, hb, hq, ?_⟩
  rw [hp]
  have hkn := sortedKeys_nodup hsc hok.1
  have : (e.1, e.2) = e := rfl
  rw [show ((e.1, e.2) : ℚ × PriceLevelData) = e from rfl] at this
  exact listFind_of_mem_nodup hkn (by rw [show ((e.1, e.2) : ℚ × PriceLevelData) = e from rfl]; exact he)

theorem qsum_ge_member {lv : PriceLevelData} {o : Order}
    (h : o ∈ lv.orders) : o.quantity ≤ qsum lv :=
  List.single_le_sum (fun x _ => Nat.zero_le x) _ (List.mem_map_of_mem _ h)

theorem removeById_split {orders : List Order} {id : Nat} {node : Order}
    (hmem : node ∈ orders) (hid : node.order_id = id)
    (hnd : (orders.map Order.order_id).Nodup) :
    ∃ a b, orders = a ++ node :: b ∧ removeById orders id = a ++ b ∧
      (∀ x ∈ a, x.order_id ≠ id) ∧ (∀ x ∈ b, x.order_id ≠ id) := by
  obtain ⟨a, b, rfl⟩ := List.append_of_mem hmem
  rw [List.map_append, List.map_cons, hid] at hnd
  rw [List.nodup_append] at hnd
  have hna : ∀ x ∈ a, x.order_id ≠ id := by
    intro x hx hc
    exact hnd.2.2 (hc ▸ List.mem_map_of_mem _ hx) (List.mem_cons_self _ _)
  have hnb : ∀ x ∈ b, x.order_id ≠ id := by
    intro x hx hc
    have := List.nodup_cons.mp hnd.2.1
    exact this.1 (hc ▸ List.mem_map_of_mem _ hx)
  refine ⟨a, b, rfl, ?_, hna, hnb⟩
  rw [removeById, List.eraseP_append_right, List.eraseP_cons_of_pos]
  · simp [hid]
  · intro x hx
    simp only [beq_iff_eq]
    exact hna x hx

theorem remove_side_spec {cmp : ℚ → ℚ → Bool} {isBuy : Bool} {side : Side}
    {lookup : List Nat} {id : Nat} (hsc : StrictCmp cmp)
    (hok : SideOK cmp isBuy side) (hlk : id ∈ lookup) (his : id ∈ sideIds side) :
    ∃ node lv, findOrderInSide side id = some node ∧ node.order_id = id ∧
      listFind side node.price = some lv ∧ node ∈ lv.orders ∧
      node.quantity ≤ lv.total_quantity ∧
      remove_order_from_side side lookup id =
        ((if removeById lv.orders id = [] then eraseLevel side node.price
          else modifyLevel side node.price
            (fun _ => ⟨lv.total_quantity - node.quantity, removeById lv.orders id⟩)),
         lookup.erase id, true) := by
  obtain ⟨node, hn⟩ := exists_findOrderInSide his
  obtain ⟨hid, e, he, hmem⟩ := findOrderInSide_some hn
  obtain ⟨hp, _, _, hfind⟩ := order_loc hsc hok he hmem
  have hqle : node.quantity ≤ e.2.total_quantity := by
    rw [(hok.2 e he).2.1]
    exact qsum_ge_member hmem
  have hc : lookup.contains id = true := List.elem_iff.mpr hlk
  refine ⟨node, e.2, hn, hid, hfind, hmem, hqle, ?_⟩
  rw [remove_order_from_side, if_pos hc, hn]
  simp only [hfind]
  rw [if_pos hqle]

theorem remove_side_ok {cmp : ℚ → ℚ → Bool} {isBuy : Bool} {side : Side}
    {lookup : List Nat} {id : Nat} (hsc : StrictCmp cmp)
    (hok : SideOK cmp isBuy side) (hnd : (sideIds side).Nodup)
    (hlk : id ∈ lookup) (his : id ∈ sideIds side) :
    SideOK cmp isBuy (remove_order_from_side side lookup id).1 ∧
    List.Perm (sideIds side) (id :: sideIds (remove_order_from_side side lookup id).1) ∧
    (remove_order_from_side side lookup id).2.1 = lookup.erase id ∧
    (remove_order_from_side side lookup id).2.2 = true ∧
    List.Sublist (sideKeys (remove_order_from_side side lookup id).1) (sideKeys side) := by
  obtain ⟨node, lv, hn, hid, hfind, hmem, hqle, hres⟩ :=
    remove_side_spec hsc hok hlk his
  obtain ⟨pre, post, heq, hpre, hpost, hnp, hnp2⟩ :=
    sorted_mem_split hsc hok.1 (listFind_mem hfind)
  have hlev : levelOK isBuy node.price lv := hok.2 _ (listFind_mem hfind)
  have hndlv : (lv.orders.map Order.order_id).Nodup := by
    have hx : sideIds side = sideIds pre ++ (lv.orders.map Order.order_id ++ sideIds post) := by
      rw [heq, sideIds_append, sideIds_cons]
    rw [hx] at hnd
    exact ((List.nodup_append.mp (List.nodup_append.mp hnd).2.1)).1
  obtain ⟨a, b, hab, hrem, hna, hnb⟩ := removeById_split hmem hid hndlv
  have hqs : qsum lv = qsum ⟨0, a⟩ + node.quantity + qsum ⟨0, b⟩ := by
    simp only [qsum, hab, List.map_append, List.map_cons, List.sum_append, List.sum_cons]
    ring
  have hbook1 : (remove_order_from_side side lookup id).2.1 = lookup.erase id := by
    rw [hres]
  have hbook2 : (remove_order_from_side side lookup id).2.2 = true := by
    rw [hres]
  by_cases hcase : removeById lv.orders id = []
  · have hanil : a = [] := (List.append_eq_nil.mp (hrem ▸ hcase)).1
    have hbnil : b = [] := (List.append_eq_nil.mp (hrem ▸ hcase)).2
    have hlv : lv.orders = [node] := by
      rw [hab, hanil, hbnil]
      rfl
    have hside : (remove_order_from_side side lookup id).1 = pre ++ post := by
      rw [hres]
      show (if removeById lv.orders id = [] then eraseLevel side node.price
        else modifyLevel side node.price
          (fun _ => ⟨lv.total_quantity - node.quantity, removeById lv.orders id⟩)) = pre ++ post
      rw [if_pos hcase, heq, eraseLevel_split hnp hnp2]
    have hsub : List.Sublist (pre ++ post) side := by
      rw [heq]
      exact List.Sublist.append_left (List.sublist_cons_self _ _) pre
    have h1 : sideIds side = sideIds pre ++ (id :: sideIds post) := by
      rw [heq, sideIds_append, sideIds_cons, hlv]
      simp [hid]
    refine ⟨⟨?_, ?_⟩, ?_, hbook1, hbook2, ?_⟩
    · rw [hside]
      exact hok.1.sublist (hsub.map Prod.fst)
    · intro e2 he2
      rw [hside] at he2
      exact hok.2 e2 (hsub.mem he2)
    · rw [hside, h1, sideIds_append]
      exact List.perm_middle
    · rw [hside]
      exact hsub.map Prod.fst
  · have habne : a ++ b ≠ [] := hrem ▸ hcase
    have hside : (remove_order_from_side side lookup id).1 =
        pre ++ (node.price, ⟨lv.total_quantity - node.quantity, a ++ b⟩) :: post := by
      rw [hres]
      show (if removeById lv.orders id = [] then eraseLevel side node.price
        else modifyLevel side node.price
          (fun _ => ⟨lv.total_quantity - node.quantity, removeById lv.orders id⟩)) = _
      rw [if_neg hcase, heq, modifyLevel_split hnp hnp2, hrem]
    have hkeq : sideKeys (pre ++ ((node.price,
        (⟨lv.total_quantity - node.quantity, a ++ b⟩ : PriceLevelData)) :: post)) =
        sideKeys side := by
      rw [heq, sideKeys_append, sideKeys_append, sideKeys_cons, sideKeys_cons]
    refine ⟨⟨?_, ?_⟩, ?_, hbook1, hbook2, ?_⟩
    · rw [hside, hkeq]
      exact hok.1
    · intro e2 he2
      rw [hside] at he2
      rcases List.mem_append.mp he2 with h | h
      · exact hok.2 e2 (heq ▸ List.mem_append_left _ h)
      · rcases List.mem_cons.mp h with h | h
        · rw [h]
          refine ⟨habne, ?_, ?_⟩
          · show lv.total_quantity - node.quantity = qsum _
            rw [hlev.2.1, hqs]
            simp only [qsum, List.map_append, List.sum_append]
            omega
          · intro x hx
            have hx2 : x ∈ lv.orders := by
              rw [hab]
              rcases List.mem_append.mp hx with h2 | h2
              · exact List.mem_append_left _ h2
              · exact List.mem_append_right _ (List.mem_cons_of_mem _ h2)
            exact hlev.2.2 x hx2
        · exact hok.2 e2 (heq ▸ List.mem_append_right _ (List.mem_cons_of_mem _ h))
    · have h1 : sideIds side = (sideIds pre ++ a.map Order.order_id) ++
          (id :: (b.map Order.order_id ++ sideIds post)) := by
        rw [heq, sideIds_append, sideIds_cons, hab]
        simp [hid, List.append_assoc]
      have h2 : sideIds (pre ++ ((node.price,
          (⟨lv.total_quantity - node.quantity, a ++ b⟩ : PriceLevelData)) :: post)) =
          (sideIds pre ++ a.map Order.order_id) ++ (b.map Order.order_id ++ sideIds post) := by
        rw [sideIds_append, sideIds_cons]
        simp [List.append_assoc]
      rw [hside, h1, h2]
      exact List.perm_middle
    · rw [hside, hkeq]

theorem setOrderQty_of_not_mem {orders : List Order} {id : Nat} {v : Nat}
    (h : id ∉ orders.map Order.order_id) : setOrderQty orders id v = orders := by
  induction orders with
  | nil => rfl
  | cons x xs ih =>
    rw [List.map_cons, List.mem_cons] at h
    simp only [not_or] at h
    rw [setOrderQty, List.map_cons, if_neg (fun hc => h.1 hc.symm)]
    have hx := ih h.2
    rw [setOrderQty] at hx
    rw [hx]

theorem setOrderQty_cons_head {o : Order} {rest : List Order} {v : Nat}
    (h : o.order_id ∉ rest.map Order.order_id) :
    setOrderQty (o :: rest) o.order_id v = { o with quantity := v } :: rest := by
  rw [setOrderQty, List.map_cons, if_pos rfl]
  have hx : setOrderQty rest o.order_id v = rest := setOrderQty_of_not_mem h
  rw [setOrderQty] at hx
  rw [hx]

theorem sideSetQty_of_not_mem {side : Side} {id : Nat} {v : Nat}
    (h : id ∉ sideIds side) : sideSetQty side id v = side := by
  induction side with
  | nil => rfl
  | cons e rest ih =>
    rw [sideIds_cons] at h
    simp only [List.mem_append, not_or] at h
    rw [sideSetQty, List.map_cons]
    have h1 : setOrderQty e.2.orders id v = e.2.orders := setOrderQty_of_not_mem h.1
    have h2 := ih h.2
    rw [sideSetQty] at h2
    rw [h1, h2]

theorem sideSetQty_cons (e : ℚ × PriceLevelData) (side : Side) (id v : Nat) :
    sideSetQty (e :: side) id v =
      (e.1, ⟨e.2.total_quantity, setOrderQty e.2.orders id v⟩) :: sideSetQty side id v := by
  rw [sideSetQty, List.map_cons]
  rfl

theorem modifyLevel_cons_head {p : ℚ} {lv : PriceLevelData} {tail : Side}
    {f : PriceLevelData → PriceLevelData} (h : p ∉ sideKeys tail) :
    modifyLevel ((p, lv) :: tail) p f = (p, f lv) :: tail := by
  rw [modifyLevel, List.map_cons, if_pos rfl]
  have hx := @modifyLevel_of_not_mem tail p f h
  rw [modifyLevel] at hx
  rw [hx]

/-- Removing the head order of the head level: the exact result shape.
The `Nat` subtraction `T - o.quantity` coincides with the source's
floored-at-zero subtraction in both branches of its guard. -/
theorem remove_head_spec {p : ℚ} {T : Nat} {o : Order} {rest : List Order}
    {tail : Side} {lookup : List Nat} {id : Nat}
    (hoid : o.order_id = id) (hlk : id ∈ lookup) (hp : o.price = p)
    (hkeys : p ∉ sideKeys tail) :
    remove_order_from_side ((p, ⟨T, o :: rest⟩) :: tail) lookup id =
      ((if rest = [] then tail else (p, ⟨T - o.quantity, rest⟩) :: tail),
       lookup.erase id, true) := by
  have hc : lookup.contains id = true := List.elem_iff.mpr hlk
  have hfo : findOrderInSide ((p, (⟨T, o :: rest⟩ : PriceLevelData)) :: tail) id
      = some o := by
    rw [findOrderInSide]
    rw [show ((p, (⟨T, o :: rest⟩ : PriceLevelData)) : ℚ × PriceLevelData).2.orders
      = o :: rest from rfl]
    rw [List.find?_cons_of_pos _ (by simp [hoid])]
  have hlf : listFind ((p, (⟨T, o :: rest⟩ : PriceLevelData)) :: tail) o.price
      = some ⟨T, o :: rest⟩ := by
    rw [listFind, if_pos hp.symm]
  have hrb : removeById (o :: rest) id = rest := by
    rw [removeById, List.eraseP_cons_of_pos (by simp [hoid])]
  rw [remove_order_from_side, if_pos hc, hfo]
  simp only [hlf, hrb]
  have htot : (if o.quantity ≤ T then T - o.quantity else 0) = T - o.quantity := by
    by_cases hle : o.quantity ≤ T
    · rw [if_pos hle]
    · rw [if_neg hle]
      omega
  by_cases hrest : rest = []
  · rw [if_pos hrest, if_pos hrest]
    have : eraseLevel ((p, (⟨T, o :: rest⟩ : PriceLevelData)) :: tail) o.price = tail := by
      rw [hp, eraseLevel, List.filter_cons]
      simp only [bne_self_eq_false, Bool.false_eq_true, if_false]
      have hx := eraseLevel_of_not_mem hkeys
      rw [eraseLevel] at hx
      rw [hx]
    rw [this]
  · rw [if_neg hrest, if_neg hrest]
    have : modifyLevel ((p, (⟨T, o :: rest⟩ : PriceLevelData)) :: tail) o.price
        (fun _ => (⟨if o.quantity ≤ T then T - o.quantity else 0, rest⟩ : PriceLevelData)) =
        (p, ⟨T - o.quantity, rest⟩) :: tail := by
      rw [hp, modifyLevel_cons_head hkeys, htot]
    rw [this]

/-- The exact result of one `execute_trade` call, under the structural
facts that hold at its only call site (heads of the two best levels). -/
theorem execute_trade_eq (tq : Nat) {st : OrderBook} {bp ap : ℚ}
    {bl al : PriceLevelData}
    {bt at2 : Side} {b s : Order} {brest srest : List Order}
    (hbids : st.bids = (bp, bl) :: bt) (hasks : st.asks = (ap, al) :: at2)
    (hb : bl.orders = b :: brest) (hs : al.orders = s :: srest)
    (hbp : b.price = bp) (hsp : s.price = ap)
    (hbr : b.order_id ∉ brest.map Order.order_id)
    (hbt : b.order_id ∉ sideIds bt)
    (hsr : s.order_id ∉ srest.map Order.order_id)
    (hst : s.order_id ∉ sideIds at2)
    (hbk : bp ∉ sideKeys bt) (hak : ap ∉ sideKeys at2)
    (hblk : b.order_id ∈ st.order_lookup) (hslk : s.order_id ∈ st.order_lookup)
    (hne : s.order_id ≠ b.order_id) :
    execute_trade st b s tq =
      { bids := if b.quantity - tq = 0 then
            (if brest = [] then bt
             else (bp, ⟨bl.total_quantity - tq, brest⟩) :: bt)
          else (bp, ⟨bl.total_quantity - tq,
            { b with quantity := b.quantity - tq } :: brest⟩) :: bt,
        asks := if s.quantity - tq = 0 then
            (if srest = [] then at2
             else (ap, ⟨al.total_quantity - tq, srest⟩) :: at2)
          else (ap, ⟨al.total_quantity - tq,
            { s with quantity := s.quantity - tq } :: srest⟩) :: at2,
        order_lookup := (if s.quantity - tq = 0 then
            (if b.quantity - tq = 0 then st.order_lookup.erase b.order_id
             else st.order_lookup).erase s.order_id
          else (if b.quantity - tq = 0 then st.order_lookup.erase b.order_id
             else st.order_lookup)),
        total_trades := st.total_trades + 1,
        total_volume := st.total_volume + tq,
        trades := st.trades ++ [Trade.mk tq (min b.price s.price) b.order_id
          s.order_id b.price s.price] } := by
  obtain ⟨bids0, asks0, lk0, tt0, tv0, tr0⟩ := st
  obtain ⟨blt, blo⟩ := bl
  obtain ⟨alt, alo⟩ := al
  dsimp only at hbids hasks hb hs hblk hslk ⊢
  subst hbids
  subst hasks
  subst hb
  subst hs
  have e1 : sideSetQty ((bp, (⟨blt, b :: brest⟩ : PriceLevelData)) :: bt)
      b.order_id (b.quantity - tq)
      = (bp, ⟨blt, { b with quantity := b.quantity - tq } :: brest⟩) :: bt := by
    rw [sideSetQty_cons, sideSetQty_of_not_mem hbt]
    dsimp only
    rw [setOrderQty_cons_head hbr]
  have e2 : sideSetQty ((ap, (⟨alt, s :: srest⟩ : PriceLevelData)) :: at2)
      s.order_id (s.quantity - tq)
      = (ap, ⟨alt, { s with quantity := s.quantity - tq } :: srest⟩) :: at2 := by
    rw [sideSetQty_cons, sideSetQty_of_not_mem hst]
    dsimp only
    rw [setOrderQty_cons_head hsr]
  have e3 : modifyLevel ((bp, (⟨blt,
      { b with quantity := b.quantity - tq } :: brest⟩ : PriceLevelData)) :: bt)
      b.price (fun lv => ⟨lv.total_quantity - tq, lv.orders⟩)
      = (bp, ⟨blt - tq, { b with quantity := b.quantity - tq } :: brest⟩) :: bt := by
    rw [hbp, modifyLevel_cons_head hbk]
  have e4 : modifyLevel ((ap, (⟨alt,
      { s with quantity := s.quantity - tq } :: srest⟩ : PriceLevelData)) :: at2)
      s.price (fun lv => ⟨lv.total_quantity - tq, lv.orders⟩)
      = (ap, ⟨alt - tq, { s with quantity := s.quantity - tq } :: srest⟩) :: at2 := by
    rw [hsp, modifyLevel_cons_head hak]
  simp only [execute_trade]
  rw [e1, e2]
  rw [e3, e4]
  by_cases hbq : b.quantity - tq = 0
  · rw [if_pos hbq]
    have er1 : remove_order_from_side
        ((bp, (⟨blt - tq, { b with quantity := b.quantity - tq } :: brest⟩ :
          PriceLevelData)) :: bt) lk0 b.order_id
        = ((if brest = [] then bt else (bp, ⟨blt - tq, brest⟩) :: bt),
           lk0.erase b.order_id, true) := by
      rw [@remove_head_spec bp (blt - tq)
        ⟨b.order_id, b.is_buy, b.price, b.quantity - tq, b.timestamp_ns⟩
        brest bt lk0 b.order_id rfl hblk hbp hbk]
      dsimp only
      rw [hbq, Nat.sub_zero]
    rw [er1]
    dsimp only
    by_cases hsq : s.quantity - tq = 0
    · rw [if_pos hsq]
      have er2 : remove_order_from_side
          ((ap, (⟨alt - tq, { s with quantity := s.quantity - tq } :: srest⟩ :
            PriceLevelData)) :: at2) (lk0.erase b.order_id) s.order_id
          = ((if srest = [] then at2 else (ap, ⟨alt - tq, srest⟩) :: at2),
             (lk0.erase b.order_id).erase s.order_id, true) := by
        rw [@remove_head_spec ap (alt - tq)
          ⟨s.order_id, s.is_buy, s.price, s.quantity - tq, s.timestamp_ns⟩
          srest at2 (lk0.erase b.order_id) s.order_id rfl
          ((List.mem_erase_of_ne hne).mpr hslk) hsp hak]
        dsimp only
        rw [hsq, Nat.sub_zero]
      rw [er2]
      rw [if_pos hbq, if_pos hsq, if_pos hbq, if_pos hsq]
    · rw [if_neg hsq, if_neg hsq, if_pos hbq, if_neg hsq, if_pos hbq]
  · rw [if_neg hbq]
    by_cases hsq : s.quantity - tq = 0
    · rw [if_pos hsq]
      have er2 : remove_order_from_side
          ((ap, (⟨alt - tq, { s with quantity := s.quantity - tq } :: srest⟩ :
            PriceLevelData)) :: at2) lk0 s.order_id
          = ((if srest = [] then at2 else (ap, ⟨alt - tq, srest⟩) :: at2),
             lk0.erase s.order_id, true) := by
        rw [@remove_head_spec ap (alt - tq)
          ⟨s.order_id, s.is_buy, s.price, s.quantity - tq, s.timestamp_ns⟩
          srest at2 lk0 s.order_id rfl hslk hsp hak]
        dsimp only
        rw [hsq, Nat.sub_zero]
      rw [er2]
      rw [if_neg hbq, if_pos hsq, if_neg hbq, if_pos hsq]
    · rw [if_neg hsq, if_neg hbq, if_neg hsq, if_neg hbq, if_neg hsq]

theorem SideOK_head_facts {cmp : ℚ → ℚ → Bool} {isBuy : Bool} {p : ℚ}
    {T : Nat} {os : List Order} {tail : Side}
    (hok : SideOK cmp isBuy ((p, ⟨T, os⟩) :: tail)) :
    T = (os.map Order.quantity).sum ∧
    (∀ o ∈ os, o.is_buy = isBuy ∧ o.price = p ∧ 0 < o.quantity) ∧
    (∀ q2 ∈ sideKeys tail, cmp p q2 = true) ∧ SideOK cmp isBuy tail := by
  obtain ⟨hsort, hlev⟩ := hok
  rw [sideKeys_cons] at hsort
  have hcons := List.pairwise_cons.mp hsort
  have hhead := hlev _ (List.mem_cons_self _ _)
  refine ⟨hhead.2.1, hhead.2.2, hcons.1, hcons.2, ?_⟩
  intro e he
  exact hlev e (List.mem_cons_of_mem _ he)

/-- Effect of one matching iteration on the affected side: the head order
of the head level is consumed by `q`; if fully filled it is removed (and
its level deleted when it was alone), otherwise it stays at the head with
reduced quantity.  The side stays well formed and its resting ids are the
old ones minus the head id exactly when the head was fully filled. -/
theorem consumed_side {cmp : ℚ → ℚ → Bool} {isBuy : Bool} {p : ℚ} {T : Nat}
    {o : Order} {rest : List Order} {tail : Side} {q : Nat}
    (hok : SideOK cmp isBuy ((p, ⟨T, o :: rest⟩) :: tail)) (hqle : q ≤ o.quantity) :
    SideOK cmp isBuy (if o.quantity - q = 0 then (if rest = [] then tail
        else (p, ⟨T - q, rest⟩) :: tail)
      else (p, ⟨T - q, { o with quantity := o.quantity - q } :: rest⟩) :: tail) ∧
    sideIds (if o.quantity - q = 0 then (if rest = [] then tail
        else (p, ⟨T - q, rest⟩) :: tail)
      else (p, ⟨T - q, { o with quantity := o.quantity - q } :: rest⟩) :: tail) =
      (if o.quantity - q = 0 then rest.map Order.order_id ++ sideIds tail
       else o.order_id :: (rest.map Order.order_id ++ sideIds tail)) := by
  obtain ⟨htot, hmem, hcmp, htail⟩ := SideOK_head_facts hok
  rw [List.map_cons, List.sum_cons] at htot
  by_cases hoq : o.quantity - q = 0
  · rw [if_pos hoq, if_pos hoq]
    by_cases hrest : rest = []
    · rw [if_pos hrest]
      subst hrest
      exact ⟨htail, by simp⟩
    · rw [if_neg hrest]
      constructor
      · constructor
        · rw [sideKeys_cons]
          exact List.pairwise_cons.mpr ⟨hcmp, htail.1⟩
        · intro e he
          rcases List.mem_cons.mp he with h | h
          · rw [h]
            refine ⟨hrest, ?_, ?_⟩
            · dsimp only
              rw [qsum]
              dsimp only
              omega
            · intro x hx
              exact hmem x (List.mem_cons_of_mem _ hx)
          · exact htail.2 e h
      · rw [sideIds_cons]
  · rw [if_neg hoq, if_neg hoq]
    constructor
    · constructor
      · rw [sideKeys_cons]
        exact List.pairwise_cons.mpr ⟨hcmp, htail.1⟩
      · intro e he
        rcases List.mem_cons.mp he with h | h
        · rw [h]
          refine ⟨by simp, ?_, ?_⟩
          · dsimp only
            rw [qsum]
            dsimp only
            rw [List.map_cons, List.sum_cons]
            dsimp only
            omega
          · intro x hx
            rcases List.mem_cons.mp hx with h2 | h2
            · rw [h2]
              obtain ⟨h3, h4, _⟩ := hmem o (List.mem_cons_self _ _)
              exact ⟨h3, h4, by dsimp only; omega⟩
            · exact hmem x (List.mem_cons_of_mem _ h2)
        · exact htail.2 e h
    · rw [sideIds_cons, List.map_cons]
      rfl

theorem execute_trade_step {st : OrderBook} {bp ap : ℚ} {bl al : PriceLevelData}
    {bt at2 : Side} {b s : Order} {brest srest : List Order}
    (hwf : WF st)
    (hbids : st.bids = (bp, bl) :: bt) (hasks : st.asks = (ap, al) :: at2)
    (hb : bl.orders = b :: brest) (hs : al.orders = s :: srest) :
    WF (execute_trade st b s (min b.quantity s.quantity)) ∧
    numOrders (execute_trade st b s (min b.quantity s.quantity)) + 1 ≤ numOrders st := by
  obtain ⟨hokb, hoka, hnd, hlnd, hl1, hl2⟩ := hwf
  have hmemb : (bp, bl) ∈ st.bids := by rw [hbids]; exact List.mem_cons_self _ _
  have hmema : (ap, al) ∈ st.asks := by rw [hasks]; exact List.mem_cons_self _ _
  have hlevb := hokb.2 _ hmemb
  have hleva := hoka.2 _ hmema
  have hbmem : b ∈ bl.orders := by rw [hb]; exact List.mem_cons_self _ _
  have hsmem : s ∈ al.orders := by rw [hs]; exact List.mem_cons_self _ _
  obtain ⟨hbbuy, hbp, hbqpos⟩ := hlevb.2.2 b hbmem
  obtain ⟨hsbuy, hsp, hsqpos⟩ := hleva.2.2 s hsmem
  have hbk : bp ∉ sideKeys bt := by
    have hx := hokb.1
    rw [hbids, sideKeys_cons] at hx
    intro hc
    exact (strictCmp_bid.ne ((List.pairwise_cons.mp hx).1 bp hc)) rfl
  have hak : ap ∉ sideKeys at2 := by
    have hx := hoka.1
    rw [hasks, sideKeys_cons] at hx
    intro hc
    exact (strictCmp_ask.ne ((List.pairwise_cons.mp hx).1 ap hc)) rfl
  have hIB : sideIds st.bids =
      b.order_id :: (brest.map Order.order_id ++ sideIds bt) := by
    rw [hbids, sideIds_cons, hb, List.map_cons]
    rfl
  have hIA : sideIds st.asks =
      s.order_id :: (srest.map Order.order_id ++ sideIds at2) := by
    rw [hasks, sideIds_cons, hs, List.map_cons]
    rfl
  have hall : allIds st = (b.order_id :: (brest.map Order.order_id ++ sideIds bt)) ++
      (s.order_id :: (srest.map Order.order_id ++ sideIds at2)) := by
    rw [allIds, hIB, hIA]
  rw [hall] at hnd
  have hndb := (List.nodup_append.mp hnd).1
  have hnda := (List.nodup_append.mp hnd).2.1
  have hdisj := (List.nodup_append.mp hnd).2.2
  have hbnot := (List.nodup_cons.mp hndb).1
  have hsnot := (List.nodup_cons.mp hnda).1
  have hbr : b.order_id ∉ brest.map Order.order_id :=
    fun h => hbnot (List.mem_append_left _ h)
  have hbt2 : b.order_id ∉ sideIds bt :=
    fun h => hbnot (List.mem_append_right _ h)
  have hsr : s.order_id ∉ srest.map Order.order_id :=
    fun h => hsnot (List.mem_append_left _ h)
  have hst2 : s.order_id ∉ sideIds at2 :=
    fun h => hsnot (List.mem_append_right _ h)
  have hne : s.order_id ≠ b.order_id := by
    intro hc
    refine hdisj (List.mem_cons_self _ _) ?_
    rw [hc]
    exact List.mem_cons_self _ _
  have hblk : b.order_id ∈ st.order_lookup :=
    hl2 _ (by rw [hall]; exact List.mem_append_left _ (List.mem_cons_self _ _))
  have hslk : s.order_id ∈ st.order_lookup :=
    hl2 _ (by rw [hall]; exact List.mem_append_right _ (List.mem_cons_self _ _))
  have hql : min b.quantity s.quantity ≤ b.quantity := Nat.min_le_left _ _
  have hqr : min b.quantity s.quantity ≤ s.quantity := Nat.min_le_right _ _
  have hE := execute_trade_eq (min b.quantity s.quantity) hbids hasks hb hs hbp hsp
    hbr hbt2 hsr hst2 hbk hak hblk hslk hne
  have hokb2 : SideOK bidCmp true ((bp, ⟨bl.total_quantity, b :: brest⟩) :: bt) := by
    rw [← hb]
    exact hbids ▸ hokb
  have hoka2 : SideOK askCmp false ((ap, ⟨al.total_quantity, s :: srest⟩) :: at2) := by
    rw [← hs]
    exact hasks ▸ hoka
  obtain ⟨hokb', hidb'⟩ := consumed_side hokb2 hql
  obtain ⟨hoka', hida'⟩ := consumed_side hoka2 hqr
  rw [hE]
  have hmemRB : ∀ i ∈ brest.map Order.order_id ++ sideIds bt,
      i ∈ st.order_lookup ∧ i ≠ b.order_id ∧ i ≠ s.order_id := by
    intro i hi
    refine ⟨hl2 _ (by rw [hall]; exact List.mem_append_left _ (List.mem_cons_of_mem _ hi)),
      ?_, ?_⟩
    · intro hc
      exact hbnot (hc ▸ hi)
    · intro hc
      exact hdisj (List.mem_cons_of_mem _ hi) (hc ▸ List.mem_cons_self _ _)
  have hmemRA : ∀ i ∈ srest.map Order.order_id ++ sideIds at2,
      i ∈ st.order_lookup ∧ i ≠ b.order_id ∧ i ≠ s.order_id := by
    intro i hi
    refine ⟨hl2 _ (by rw [hall]; exact List.mem_append_right _ (List.mem_cons_of_mem _ hi)),
      ?_, ?_⟩
    · intro hc
      exact hdisj (hc ▸ List.mem_cons_self _ _) (List.mem_cons_of_mem _ hi)
    · intro hc
      exact hsnot (hc ▸ hi)
  refine ⟨⟨hokb', hoka', ?_, ?_, ?_, ?_⟩, ?_⟩
  · show (sideIds _ ++ sideIds _).Nodup
    rw [hidb', hida']
    have hsubB : List.Sublist (if b.quantity - min b.quantity s.quantity = 0
        then brest.map Order.order_id ++ sideIds bt
        else b.order_id :: (brest.map Order.order_id ++ sideIds bt))
        (b.order_id :: (brest.map Order.order_id ++ sideIds bt)) := by
      by_cases h : b.quantity - min b.quantity s.quantity = 0
      · rw [if_pos h]
        exact List.sublist_cons_self _ _
      · rw [if_neg h]
    have hsubA : List.Sublist (if s.quantity - min b.quantity s.quantity = 0
        then srest.map Order.order_id ++ sideIds at2
        else s.order_id :: (srest.map Order.order_id ++ sideIds at2))
        (s.order_id :: (srest.map Order.order_id ++ sideIds at2)) := by
      by_cases h : s.quantity - min b.quantity s.quantity = 0
      · rw [if_pos h]
        exact List.sublist_cons_self _ _
      · rw [if_neg h]
    exact (hsubB.append hsubA).nodup hnd
  · dsimp only
    by_cases hbq : b.quantity - min b.quantity s.quantity = 0 <;>
      by_cases hsq : s.quantity - min b.quantity s.quantity = 0
    · rw [if_pos hsq, if_pos hbq]
      exact ((List.erase_sublist _ _).trans (List.erase_sublist _ _)).nodup hlnd
    · rw [if_neg hsq, if_pos hbq]
      exact (List.erase_sublist _ _).nodup hlnd
    · rw [if_pos hsq, if_neg hbq]
      exact (List.erase_sublist _ _).nodup hlnd
    · rw [if_neg hsq, if_neg hbq]
      exact hlnd
  · intro i hi
    dsimp only at hi
    show i ∈ sideIds _ ++ sideIds _
    rw [hidb', hida']
    by_cases hbq : b.quantity - min b.quantity s.quantity = 0 <;>
      by_cases hsq : s.quantity - min b.quantity s.quantity = 0
    · rw [if_pos hsq, if_pos hbq] at hi
      rw [if_pos hsq, if_pos hbq]
      rw [List.Nodup.mem_erase_iff (hlnd.erase _)] at hi
      obtain ⟨his, hi2⟩ := hi
      rw [List.Nodup.mem_erase_iff hlnd] at hi2
      obtain ⟨hib, hi3⟩ := hi2
      have h4 := hl1 i hi3
      rw [hall] at h4
      rcases List.mem_append.mp h4 with h5 | h5
      · rcases List.mem_cons.mp h5 with h6 | h6
        · exact absurd h6 hib
        · exact List.mem_append_left _ h6
      · rcases List.mem_cons.mp h5 with h6 | h6
        · exact absurd h6 his
        · exact List.mem_append_right _ h6
    · rw [if_neg hsq, if_pos hbq] at hi
      rw [if_neg hsq, if_pos hbq]
      rw [List.Nodup.mem_erase_iff hlnd] at hi
      obtain ⟨hib, hi3⟩ := hi
      have h4 := hl1 i hi3
      rw [hall] at h4
      rcases List.mem_append.mp h4 with h5 | h5
      · rcases List.mem_cons.mp h5 with h6 | h6
        · exact absurd h6 hib
        · exact List.mem_append_left _ h6
      · exact List.mem_append_right _ h5
    · rw [if_pos hsq, if_neg hbq] at hi
      rw [if_pos hsq, if_neg hbq]
      rw [List.Nodup.mem_erase_iff hlnd] at hi
      obtain ⟨his, hi3⟩ := hi
      have h4 := hl1 i hi3
      rw [hall] at h4
      rcases List.mem_append.mp h4 with h5 | h5
      · exact List.mem_append_left _ h5
      · rcases List.mem_cons.mp h5 with h6 | h6
        · exact absurd h6 his
        · exact List.mem_append_right _ h6
    · rw [if_neg hsq, if_neg hbq] at hi
      rw [if_neg hsq, if_neg hbq]
      have h4 := hl1 i hi
      rw [hall] at h4
      exact h4
  · intro i hi
    have hi2 : i ∈ sideIds _ ++ sideIds _ := hi
    rw [hidb', hida'] at hi2
    dsimp only
    by_cases hbq : b.quantity - min b.quantity s.quantity = 0 <;>
      by_cases hsq : s.quantity - min b.quantity s.quantity = 0
    · rw [if_pos hsq, if_pos hbq] at hi2
      rw [if_pos hsq, if_pos hbq]
      rw [List.Nodup.mem_erase_iff (hlnd.erase _), List.Nodup.mem_erase_iff hlnd]
      rcases List.mem_append.mp hi2 with h5 | h5
      · obtain ⟨hm, hnb2, hns2⟩ := hmemRB i h5
        exact ⟨hns2, hnb2, hm⟩
      · obtain ⟨hm, hnb2, hns2⟩ := hmemRA i h5
        exact ⟨hns2, hnb2, hm⟩
    · rw [if_neg hsq, if_pos hbq] at hi2
      rw [if_neg hsq, if_pos hbq]
      rw [List.Nodup.mem_erase_iff hlnd]
      rcases List.mem_append.mp hi2 with h5 | h5
      · obtain ⟨hm, hnb2, _⟩ := hmemRB i h5
        exact ⟨hnb2, hm⟩
      · rcases List.mem_cons.mp h5 with h6 | h6
        · exact ⟨h6.symm ▸ hne, h6.symm ▸ hslk⟩
        · obtain ⟨hm, hnb2, _⟩ := hmemRA i h6
          exact ⟨hnb2, hm⟩
    · rw [if_pos hsq, if_neg hbq] at hi2
      rw [if_pos hsq, if_neg hbq]
      rw [List.Nodup.mem_erase_iff hlnd]
      rcases List.mem_append.mp hi2 with h5 | h5
      · rcases List.mem_cons.mp h5 with h6 | h6
        · exact ⟨h6.symm ▸ hne.symm, h6.symm ▸ hblk⟩
        · obtain ⟨hm, _, hns2⟩ := hmemRB i h6
          exact ⟨hns2, hm⟩
      · obtain ⟨hm, _, hns2⟩ := hmemRA i h5
        exact ⟨hns2, hm⟩
    · rw [if_neg hsq, if_neg hbq] at hi2
      rw [if_neg hsq, if_neg hbq]
      apply hl2
      rw [hall]
      exact hi2
  · show (sideIds _).length + (sideIds _).length + 1 ≤ numOrders st
    rw [hidb', hida', numOrders, hIB, hIA]
    by_cases hbq : b.quantity - min b.quantity s.quantity = 0 <;>
      by_cases hsq : s.quantity - min b.quantity s.quantity = 0
    · rw [if_pos hsq, if_pos hbq]
      simp only [List.length_cons]
      omega
    · rw [if_neg hsq, if_pos hbq]
      simp only [List.length_cons]
      omega
    · rw [if_pos hsq, if_neg hbq]
      simp only [List.length_cons]
      omega
    · exfalso
      omega

theorem sides_empty_of_numOrders_zero {st : OrderBook} (hwf : WF st)
    (h : numOrders st = 0) : st.bids = [] ∧ st.asks = [] := by
  rw [numOrders] at h
  constructor
  · cases hbids : st.bids with
    | nil => rfl
    | cons e bt =>
      exfalso
      have hne := (hwf.1.2 _ (hbids ▸ List.mem_cons_self _ _)).1
      have : sideIds st.bids ≠ [] := by
        rw [hbids, sideIds_cons]
        intro hc
        rcases List.append_eq_nil.mp hc with ⟨h1, _⟩
        exact hne (List.map_eq_nil_iff.mp h1)
      have hlen : 0 < (sideIds st.bids).length := List.length_pos.mpr this
      omega
  · cases hasks : st.asks with
    | nil => rfl
    | cons e at2 =>
      exfalso
      have hne := (hwf.2.1.2 _ (hasks ▸ List.mem_cons_self _ _)).1
      have : sideIds st.asks ≠ [] := by
        rw [hasks, sideIds_cons]
        intro hc
        rcases List.append_eq_nil.mp hc with ⟨h1, _⟩
        exact hne (List.map_eq_nil_iff.mp h1)
      have hlen : 0 < (sideIds st.asks).length := List.length_pos.mpr this
      omega

/-- One unrolling of the matching loop when the book crosses: the heads of
the two best levels trade. -/
theorem matchLoop_succ_cross {st : OrderBook} {n : Nat} {bp ap : ℚ}
    {bl al : PriceLevelData} {bt at2 : Side} {b s : Order}
    {brest srest : List Order}
    (hbids : st.bids = (bp, bl) :: bt) (hasks : st.asks = (ap, al) :: at2)
    (hb : bl.orders = b :: brest) (hs : al.orders = s :: srest)
    (hcross : ¬ bp < ap) :
    matchLoop (n + 1) st =
      matchLoop n (execute_trade st b s (min b.quantity s.quantity)) := by
  rw [matchLoop]
  simp only [hbids, hasks, hb, hs, if_neg hcross]

theorem matchLoop_ok : ∀ (n : Nat) (st : OrderBook), WF st → numOrders st ≤ n →
    WF (matchLoop n st) ∧ noCross (matchLoop n st) := by
  intro n
  induction n with
  | zero =>
    intro st hwf hn
    rw [matchLoop]
    obtain ⟨h1, _⟩ := sides_empty_of_numOrders_zero hwf (Nat.le_zero.mp hn)
    exact ⟨hwf, Or.inl h1⟩
  | succ n ih =>
    intro st hwf hn
    cases hbids : st.bids with
    | nil =>
      have heq : matchLoop (n + 1) st = st := by
        rw [matchLoop]
        simp only [hbids]
      rw [heq]
      exact ⟨hwf, Or.inl hbids⟩
    | cons e bt =>
      cases hasks : st.asks with
      | nil =>
        have heq : matchLoop (n + 1) st = st := by
          rw [matchLoop]
          simp only [hbids, hasks]
        rw [heq]
        exact ⟨hwf, Or.inr (Or.inl hasks)⟩
      | cons f at2 =>
        obtain ⟨bp, bl⟩ := e
        obtain ⟨ap, al⟩ := f
        by_cases hcross : bp < ap
        · have heq : matchLoop (n + 1) st = st := by
            rw [matchLoop]
            simp only [hbids, hasks, if_pos hcross]
          rw [heq]
          refine ⟨hwf, Or.inr (Or.inr ?_)⟩
          rw [get_best_bid, get_best_ask]
          simp only [hbids, hasks]
          exact hcross
        · have hblne := (hwf.1.2 _ (hbids ▸ List.mem_cons_self _ _)).1
          have halne := (hwf.2.1.2 _ (hasks ▸ List.mem_cons_self _ _)).1
          cases hbo : bl.orders with
          | nil => exact absurd hbo hblne
          | cons b brest =>
            cases hso : al.orders with
            | nil => exact absurd hso halne
            | cons s srest =>
              rw [matchLoop_succ_cross hbids hasks hbo hso hcross]
              obtain ⟨hwf', hdec⟩ := execute_trade_step hwf hbids hasks hbo hso
              exact ih _ hwf' (by omega)

theorem process_matching_ok {st : OrderBook} (hwf : WF st) :
    WF (process_matching st) ∧ noCross (process_matching st) :=
  matchLoop_ok (numOrders st) st hwf (Nat.le_refl _)

theorem not_mem_allIds_of_not_lookup {st : OrderBook} (hwf : WF st) {i : Nat}
    (h : i ∉ st.order_lookup) : i ∉ allIds st :=
  fun hc => h (hwf.2.2.2.2.2 i hc)

theorem add_book_wf {st : OrderBook} {o2 : Order} (hwf : WF st)
    (hfresh : o2.order_id ∉ st.order_lookup) (hq : 0 < o2.quantity) :
    WF (if o2.is_buy then
        { st with bids := (add_order_to_side bidCmp o2 st.bids st.order_lookup).1, order_lookup := (add_order_to_side bidCmp o2 st.bids st.order_lookup).2 }
      else
        { st with asks := (add_order_to_side askCmp o2 st.asks st.order_lookup).1, order_lookup := (add_order_to_side askCmp o2 st.asks st.order_lookup).2 }) := by
  obtain ⟨hokb, hoka, hnd, hlnd, hl1, hl2⟩ := hwf
  have hids : o2.order_id ∉ allIds st :=
    not_mem_allIds_of_not_lookup ⟨hokb, hoka, hnd, hlnd, hl1, hl2⟩ hfresh
  cases hbuy : o2.is_buy with
  | true =>
    rw [if_pos rfl]
    obtain ⟨hok', hperm, hlk⟩ :=
      @add_side_ok bidCmp true st.bids st.order_lookup o2 strictCmp_bid hokb hbuy hq
    have hpermAll : List.Perm
        (sideIds (add_order_to_side bidCmp o2 st.bids st.order_lookup).1 ++ sideIds st.asks)
        (o2.order_id :: allIds st) := by
      rw [allIds]
      exact hperm.append_right _
    refine ⟨hok', hoka, ?_, ?_, ?_, ?_⟩
    · show (sideIds _ ++ sideIds _).Nodup
      exact hpermAll.nodup_iff.mpr (List.nodup_cons.mpr ⟨hids, hnd⟩)
    · show ((add_order_to_side bidCmp o2 st.bids st.order_lookup).2).Nodup
      rw [hlk]
      exact List.nodup_cons.mpr ⟨hfresh, hlnd⟩
    · intro i hi
      show i ∈ sideIds _ ++ sideIds _
      rw [hlk] at hi
      rw [hpermAll.mem_iff]
      rcases List.mem_cons.mp hi with h | h
      · exact List.mem_cons.mpr (Or.inl h)
      · exact List.mem_cons.mpr (Or.inr (hl1 i h))
    · intro i hi
      have hi2 : i ∈ sideIds _ ++ sideIds _ := hi
      rw [hpermAll.mem_iff] at hi2
      show i ∈ (add_order_to_side bidCmp o2 st.bids st.order_lookup).2
      rw [hlk]
      rcases List.mem_cons.mp hi2 with h | h
      · exact List.mem_cons.mpr (Or.inl h)
      · exact List.mem_cons.mpr (Or.inr (hl2 i h))
  | false =>
    rw [if_neg (by simp [hbuy])]
    obtain ⟨hok', hperm, hlk⟩ :=
      @add_side_ok askCmp false st.asks st.order_lookup o2 strictCmp_ask hoka hbuy hq
    have hpermAll : List.Perm
        (sideIds st.bids ++ sideIds (add_order_to_side askCmp o2 st.asks st.order_lookup).1)
        (o2.order_id :: allIds st) := by
      rw [allIds]
      exact ((List.Perm.append_left _ hperm).trans List.perm_middle)
    refine ⟨hokb, hok', ?_, ?_, ?_, ?_⟩
    · show (sideIds _ ++ sideIds _).Nodup
      exact hpermAll.nodup_iff.mpr (List.nodup_cons.mpr ⟨hids, hnd⟩)
    · show ((add_order_to_side askCmp o2 st.asks st.order_lookup).2).Nodup
      rw [hlk]
      exact List.nodup_cons.mpr ⟨hfresh, hlnd⟩
    · intro i hi
      show i ∈ sideIds _ ++ sideIds _
      rw [hlk] at hi
      rw [hpermAll.mem_iff]
      rcases List.mem_cons.mp hi with h | h
      · exact List.mem_cons.mpr (Or.inl h)
      · exact List.mem_cons.mpr (Or.inr (hl1 i h))
    · intro i hi
      have hi2 : i ∈ sideIds _ ++ sideIds _ := hi
      rw [hpermAll.mem_iff] at hi2
      show i ∈ (add_order_to_side askCmp o2 st.asks st.order_lookup).2
      rw [hlk]
      rcases List.mem_cons.mp hi2 with h | h
      · exact List.mem_cons.mpr (Or.inl h)
      · exact List.mem_cons.mpr (Or.inr (hl2 i h))

theorem add_order_wf {st : OrderBook} {o : Order} {m : Bool} {now : Nat}
    {st' : OrderBook} (hwf : WF st) (h : add_order st o m now = .ok st') :
    WF st' ∧ (m = true → noCross st') := by
  rw [add_order] at h
  by_cases hdup : st.order_lookup.contains o.order_id = true
  · rw [if_pos hdup] at h
    simp at h
  rw [if_neg hdup] at h
  by_cases hq0 : o.quantity = 0
  · rw [if_pos hq0] at h
    simp at h
  rw [if_neg hq0] at h
  by_cases hp0 : o.price ≤ 0
  · rw [if_pos hp0] at h
    simp at h
  rw [if_neg hp0] at h
  have hfresh : (if o.timestamp_ns = 0 then { o with timestamp_ns := now }
      else o).order_id ∉ st.order_lookup := by
    by_cases hts : o.timestamp_ns = 0
    · rw [if_pos hts]
      intro hc
      exact hdup (List.elem_iff.mpr hc)
    · rw [if_neg hts]
      intro hc
      exact hdup (List.elem_iff.mpr hc)
  have hqpos : 0 < (if o.timestamp_ns = 0 then { o with timestamp_ns := now }
      else o).quantity := by
    by_cases hts : o.timestamp_ns = 0
    · rw [if_pos hts]
      exact Nat.pos_of_ne_zero hq0
    · rw [if_neg hts]
      exact Nat.pos_of_ne_zero hq0
  have hwf1 := add_book_wf hwf hfresh hqpos
  dsimp only at h
  injection h with h2
  subst h2
  by_cases hm : m = true
  · rw [if_pos hm]
    obtain ⟨hw, hnc⟩ := process_matching_ok hwf1
    exact ⟨hw, fun _ => hnc⟩
  · rw [if_neg hm]
    exact ⟨hwf1, fun hc => absurd hc hm⟩

theorem le_best_bid {ks : List ℚ} {k h : ℚ}
    (hsort : (h :: ks).Pairwise (fun a b => bidCmp a b = true))
    (hk : k ∈ h :: ks) : k ≤ h := by
  rcases List.mem_cons.mp hk with h1 | h1
  · rw [h1]
  · have := (List.pairwise_cons.mp hsort).1 k h1
    rw [bidCmp, decide_eq_true_eq] at this
    exact le_of_lt this

theorem best_ask_le {ks : List ℚ} {k h : ℚ}
    (hsort : (h :: ks).Pairwise (fun a b => askCmp a b = true))
    (hk : k ∈ h :: ks) : h ≤ k := by
  rcases List.mem_cons.mp hk with h1 | h1
  · rw [h1]
  · have := (List.pairwise_cons.mp hsort).1 k h1
    rw [askCmp, decide_eq_true_eq] at this
    exact le_of_lt this

theorem remove_book_wf_bids {st : OrderBook} {id : Nat} (hwf : WF st)
    (hlk : id ∈ st.order_lookup) (his : id ∈ sideIds st.bids) :
    WF { st with bids := (remove_order_from_side st.bids st.order_lookup id).1, order_lookup := (remove_order_from_side st.bids st.order_lookup id).2.1 } ∧
    (noCross st → noCross { st with bids := (remove_order_from_side st.bids st.order_lookup id).1, order_lookup := (remove_order_from_side st.bids st.order_lookup id).2.1 }) ∧
    (remove_order_from_side st.bids st.order_lookup id).2.2 = true := by
  obtain ⟨hokb, hoka, hnd, hlnd, hl1, hl2⟩ := hwf
  have hndb : (sideIds st.bids).Nodup := (List.nodup_append.mp hnd).1
  obtain ⟨hok', hperm, hlkeq, hflag, hsub⟩ :=
    remove_side_ok strictCmp_bid hokb hndb hlk his
  have hpermAll : List.Perm (allIds st)
      (id :: (sideIds (remove_order_from_side st.bids st.order_lookup id).1 ++
        sideIds st.asks)) := by
    rw [allIds]
    exact hperm.append_right _
  have hnd2 := hpermAll.nodup_iff.mp hnd
  have hid_out := (List.nodup_cons.mp hnd2).1
  refine ⟨⟨hok', hoka, ?_, ?_, ?_, ?_⟩, ?_, hflag⟩
  · exact (List.nodup_cons.mp hnd2).2
  · show ((remove_order_from_side st.bids st.order_lookup id).2.1).Nodup
    rw [hlkeq]
    exact (List.erase_sublist _ _).nodup hlnd
  · intro i hi
    show i ∈ sideIds _ ++ sideIds _
    rw [hlkeq] at hi
    rw [List.Nodup.mem_erase_iff hlnd] at hi
    obtain ⟨hne, hmem⟩ := hi
    have h2 := hl1 i hmem
    rw [hpermAll.mem_iff] at h2
    rcases List.mem_cons.mp h2 with h3 | h3
    · exact absurd h3 hne
    · exact h3
  · intro i hi
    have hi2 : i ∈ sideIds _ ++ sideIds _ := hi
    show i ∈ (remove_order_from_side st.bids st.order_lookup id).2.1
    rw [hlkeq, List.Nodup.mem_erase_iff hlnd]
    constructor
    · intro hc
      exact hid_out (hc ▸ hi2)
    · exact hl2 i (hpermAll.mem_iff.mpr (List.mem_cons_of_mem _ hi2))
  · intro hnc
    have hbne : st.bids ≠ [] := by
      intro hc
      rw [hc] at his
      simp [sideIds] at his
    rcases hnc with h1 | h1 | h1
    · exact absurd h1 hbne
    · right
      left
      exact h1
    · cases hr : (remove_order_from_side st.bids st.order_lookup id).1 with
      | nil => exact Or.inl rfl
      | cons e tl =>
        right
        right
        obtain ⟨ep, el⟩ := e
        have hmem : ep ∈ sideKeys st.bids := by
          apply hsub.mem
          rw [hr, sideKeys_cons]
          exact List.mem_cons_self _ _
        have h4 : ep ≤ get_best_bid st := by
          cases hb0 : st.bids with
          | nil => exact absurd hb0 hbne
          | cons e0 tb =>
            obtain ⟨e0p, e0l⟩ := e0
            have hsort := hokb.1
            rw [hb0, sideKeys_cons] at hsort hmem
            have : get_best_bid st = e0p := by
              rw [get_best_bid]
              simp only [hb0]
            rw [this]
            exact le_best_bid hsort hmem
        have h5 : ep < get_best_ask st := lt_of_le_of_lt h4 h1
        exact h5

theorem remove_book_wf_asks {st : OrderBook} {id : Nat} (hwf : WF st)
    (hlk : id ∈ st.order_lookup) (his : id ∈ sideIds st.asks) :
    WF { st with asks := (remove_order_from_side st.asks st.order_lookup id).1, order_lookup := (remove_order_from_side st.asks st.order_lookup id).2.1 } ∧
    (noCross st → noCross { st with asks := (remove_order_from_side st.asks st.order_lookup id).1, order_lookup := (remove_order_from_side st.asks st.order_lookup id).2.1 }) ∧
    (remove_order_from_side st.asks st.order_lookup id).2.2 = true := by
  obtain ⟨hokb, hoka, hnd, hlnd, hl1, hl2⟩ := hwf
  have hnda : (sideIds st.asks).Nodup := (List.nodup_append.mp hnd).2.1
  obtain ⟨hok', hperm, hlkeq, hflag, hsub⟩ :=
    remove_side_ok strictCmp_ask hoka hnda hlk his
  have hpermAll : List.Perm (allIds st)
      (id :: (sideIds st.bids ++
        sideIds (remove_order_from_side st.asks st.order_lookup id).1)) := by
    rw [allIds]
    exact (List.Perm.append_left _ hperm).trans List.perm_middle
  have hnd2 := hpermAll.nodup_iff.mp hnd
  have hid_out := (List.nodup_cons.mp hnd2).1
  refine ⟨⟨hokb, hok', ?_, ?_, ?_, ?_⟩, ?_, hflag⟩
  · exact (List.nodup_cons.mp hnd2).2
  · show ((remove_order_from_side st.asks st.order_lookup id).2.1).Nodup
    rw [hlkeq]
    exact (List.erase_sublist _ _).nodup hlnd
  · intro i hi
    show i ∈ sideIds _ ++ sideIds _
    rw [hlkeq] at hi
    rw [List.Nodup.mem_erase_iff hlnd] at hi
    obtain ⟨hne, hmem⟩ := hi
    have h2 := hl1 i hmem
    rw [hpermAll.mem_iff] at h2
    rcases List.mem_cons.mp h2 with h3 | h3
    · exact absurd h3 hne
    · exact h3
  · intro i hi
    have hi2 : i ∈ sideIds _ ++ sideIds _ := hi
    show i ∈ (remove_order_from_side st.asks st.order_lookup id).2.1
    rw [hlkeq, List.Nodup.mem_erase_iff hlnd]
    constructor
    · intro hc
      exact hid_out (hc ▸ hi2)
    · exact hl2 i (hpermAll.mem_iff.mpr (List.mem_cons_of_mem _ hi2))
  · intro hnc
    have hane : st.asks ≠ [] := by
      intro hc
      rw [hc] at his
      simp [sideIds] at his
    rcases hnc with h1 | h1 | h1
    · left
      exact h1
    · exact absurd h1 hane
    · cases hr : (remove_order_from_side st.asks st.order_lookup id).1 with
      | nil => exact Or.inr (Or.inl rfl)
      | cons e tl =>
        right
        right
        obtain ⟨ep, el⟩ := e
        have hmem : ep ∈ sideKeys st.asks := by
          apply hsub.mem
          rw [hr, sideKeys_cons]
          exact List.mem_cons_self _ _
        have h4 : get_best_ask st ≤ ep := by
          cases ha0 : st.asks with
          | nil => exact absurd ha0 hane
          | cons e0 ta =>
            obtain ⟨e0p, e0l⟩ := e0
            have hsort := hoka.1
            rw [ha0, sideKeys_cons] at hsort hmem
            have hx : get_best_ask st = e0p := by
              rw [get_best_ask]
              simp only [ha0]
            rw [hx]
            exact best_ask_le hsort hmem
        have h5 : get_best_bid st < ep := lt_of_lt_of_le h1 h4
        exact h5

theorem cancel_order_wf {st : OrderBook} {id : Nat} (hwf : WF st) :
    WF (cancel_order st id).1 ∧ (noCross st → noCross (cancel_order st id).1) := by
  rw [cancel_order]
  by_cases hc : st.order_lookup.contains id = true
  · rw [if_pos hc]
    have hlkm : id ∈ st.order_lookup := List.elem_iff.mp hc
    cases hfb : findOrderInSide st.bids id with
    | some node =>
      have hfa : findOrderAny st id = some node := by rw [findOrderAny, hfb]
      obtain ⟨hid, e, he, hmem⟩ := findOrderInSide_some hfb
      have hbuy : node.is_buy = true := ((hwf.1.2 e he).2.2 node hmem).1
      have his : id ∈ sideIds st.bids := hid ▸ mem_sideIds_of_mem he hmem
      simp only [hfa]
      rw [if_pos hbuy]
      obtain ⟨hw, hnc, _⟩ := remove_book_wf_bids hwf hlkm his
      exact ⟨hw, hnc⟩
    | none =>
      cases hfa2 : findOrderInSide st.asks id with
      | some node =>
        have hfa : findOrderAny st id = some node := by rw [findOrderAny, hfb, hfa2]
        obtain ⟨hid, e, he, hmem⟩ := findOrderInSide_some hfa2
        have hbuy : node.is_buy = false := ((hwf.2.1.2 e he).2.2 node hmem).1
        have his : id ∈ sideIds st.asks := hid ▸ mem_sideIds_of_mem he hmem
        simp only [hfa]
        rw [if_neg (by rw [hbuy]; exact Bool.false_ne_true)]
        obtain ⟨hw, hnc, _⟩ := remove_book_wf_asks hwf hlkm his
        exact ⟨hw, hnc⟩
      | none =>
        exfalso
        have hall : id ∈ allIds st := hwf.2.2.2.2.1 id hlkm
        rcases List.mem_append.mp hall with h | h
        · obtain ⟨n2, hn2⟩ := exists_findOrderInSide h
          rw [hfb] at hn2
          cases hn2
        · obtain ⟨n2, hn2⟩ := exists_findOrderInSide h
          rw [hfa2] at hn2
          cases hn2
  · rw [if_neg hc]
    exact ⟨hwf, fun h => h⟩

theorem setOrderQty_split {os : List Order} {ex : Order} {id q : Nat}
    (hmem : ex ∈ os) (hid : ex.order_id = id)
    (hnd : (os.map Order.order_id).Nodup) :
    ∃ a b2, os = a ++ ex :: b2 ∧
      setOrderQty os id q = a ++ { ex with quantity := q } :: b2 ∧
      (∀ x ∈ a, x.order_id ≠ id) ∧ (∀ x ∈ b2, x.order_id ≠ id) := by
  obtain ⟨a, b2, rfl⟩ := List.append_of_mem hmem
  rw [List.map_append, List.map_cons, hid] at hnd
  rw [List.nodup_append] at hnd
  have hna : ∀ x ∈ a, x.order_id ≠ id := by
    intro x hx hc
    exact hnd.2.2 (hc ▸ List.mem_map_of_mem _ hx) (List.mem_cons_self _ _)
  have hnb : ∀ x ∈ b2, x.order_id ≠ id := by
    intro x hx hc
    exact (List.nodup_cons.mp hnd.2.1).1 (hc ▸ List.mem_map_of_mem _ hx)
  refine ⟨a, b2, rfl, ?_, hna, hnb⟩
  rw [setOrderQty, List.map_append]
  have h1 : setOrderQty a id q = a := setOrderQty_of_not_mem
    (fun hx => by obtain ⟨y, hy, hyid⟩ := List.mem_map.mp hx; exact hna y hy hyid)
  rw [setOrderQty] at h1
  rw [h1, List.map_cons, if_pos hid]
  have h2 : setOrderQty b2 id q = b2 := setOrderQty_of_not_mem
    (fun hx => by obtain ⟨y, hy, hyid⟩ := List.mem_map.mp hx; exact hnb y hy hyid)
  rw [setOrderQty] at h2
  rw [h2]

theorem amend_side_ok {cmp : ℚ → ℚ → Bool} {isBuy : Bool} {side : Side}
    {ex : Order} {q : Nat} (hsc : StrictCmp cmp) (hok : SideOK cmp isBuy side)
    (hnd : (sideIds side).Nodup) {e : ℚ × PriceLevelData}
    (he : e ∈ side) (hmem : ex ∈ e.2.orders) (hq : 0 < q) :
    SideOK cmp isBuy (sideSetQty (modifyLevel side ex.price
      (fun lv => ⟨lv.total_quantity + q - ex.quantity, lv.orders⟩)) ex.order_id q) ∧
    sideIds (sideSetQty (modifyLevel side ex.price
      (fun lv => ⟨lv.total_quantity + q - ex.quantity, lv.orders⟩)) ex.order_id q) =
      sideIds side ∧
    ∃ pre post lv', side = pre ++ e :: post ∧
      sideSetQty (modifyLevel side ex.price
        (fun lv => ⟨lv.total_quantity + q - ex.quantity, lv.orders⟩)) ex.order_id q =
        pre ++ (e.1, lv') :: post := by
  obtain ⟨hp, hbuy, hqpos, hfind⟩ := order_loc hsc hok he hmem
  obtain ⟨pre, post, heq, hpre, hpost, hnp, hnp2⟩ :=
    sorted_mem_split hsc hok.1 (listFind_mem (show listFind side e.1 = some e.2 from hp ▸ hfind))
  have hlevnd : (e.2.orders.map Order.order_id).Nodup := by
    have hx : sideIds side = sideIds pre ++ (e.2.orders.map Order.order_id ++ sideIds post) := by
      rw [heq, sideIds_append, sideIds_cons]
    rw [hx] at hnd
    exact ((List.nodup_append.mp (List.nodup_append.mp hnd).2.1)).1
  obtain ⟨a, b2, hab, hset, hna, hnb⟩ := setOrderQty_split hmem rfl hlevnd
  have hprend : ex.order_id ∉ sideIds pre := by
    have hx : sideIds side = sideIds pre ++ (e.2.orders.map Order.order_id ++ sideIds post) := by
      rw [heq, sideIds_append, sideIds_cons]
    rw [hx] at hnd
    intro hc
    exact (List.nodup_append.mp hnd).2.2 hc
      (List.mem_append_left _ (hab ▸ (by
        rw [List.map_append, List.map_cons]
        exact List.mem_append_right _ (List.mem_cons_self _ _))))
  have hpostnd : ex.order_id ∉ sideIds post := by
    have hx : sideIds side = sideIds pre ++ (e.2.orders.map Order.order_id ++ sideIds post) := by
      rw [heq, sideIds_append, sideIds_cons]
    rw [hx] at hnd
    intro hc
    have h2 := (List.nodup_append.mp (List.nodup_append.mp hnd).2.1).2.2
    exact h2 (hab ▸ (by
        rw [List.map_append, List.map_cons]
        exact List.mem_append_right _ (List.mem_cons_self _ _))) hc
  have hmod : modifyLevel side ex.price
      (fun lv => (⟨lv.total_quantity + q - ex.quantity, lv.orders⟩ : PriceLevelData)) =
      pre ++ (e.1, ⟨e.2.total_quantity + q - ex.quantity, e.2.orders⟩) :: post := by
    rw [hp, heq]
    rw [show ((e.1, e.2) : ℚ × PriceLevelData) = e from rfl]
    rw [show (e : ℚ × PriceLevelData) = (e.1, e.2) from rfl, modifyLevel_split hnp hnp2]
  have hval : sideSetQty (modifyLevel side ex.price
      (fun lv => (⟨lv.total_quantity + q - ex.quantity, lv.orders⟩ : PriceLevelData)))
      ex.order_id q =
      pre ++ (e.1, ⟨e.2.total_quantity + q - ex.quantity,
        a ++ { ex with quantity := q } :: b2⟩) :: post := by
    rw [hmod, sideSetQty, List.map_append, List.map_cons]
    have h1 : sideSetQty pre ex.order_id q = pre := sideSetQty_of_not_mem hprend
    have h2 : sideSetQty post ex.order_id q = post := sideSetQty_of_not_mem hpostnd
    rw [sideSetQty] at h1 h2
    rw [h1, h2]
    have h3 : setOrderQty e.2.orders ex.order_id q = a ++ { ex with quantity := q } :: b2 :=
      hset
    rw [show setOrderQty (e.1, (⟨e.2.total_quantity + q - ex.quantity, e.2.orders⟩ :
      PriceLevelData)).2.orders ex.order_id q = setOrderQty e.2.orders ex.order_id q
      from rfl] at *
    simp only [h3]
  rw [hval]
  have hqsum : e.2.total_quantity = qsum e.2 := (hok.2 e he).2.1
  have hqle : ex.quantity ≤ qsum e.2 := qsum_ge_member hmem
  have hkeys : sideKeys (pre ++ ((e.1, (⟨e.2.total_quantity + q - ex.quantity,
      a ++ { ex with quantity := q } :: b2⟩ : PriceLevelData)) :: post)) = sideKeys side := by
    rw [heq, sideKeys_append, sideKeys_append, sideKeys_cons, sideKeys_cons]
  refine ⟨⟨?_, ?_⟩, ?_, pre, post, _, heq, rfl⟩
  · rw [hkeys]
    exact hok.1
  · intro e2 he2
    rcases List.mem_append.mp he2 with h | h
    · exact hok.2 e2 (heq ▸ List.mem_append_left _ h)
    · rcases List.mem_cons.mp h with h | h
      · rw [h]
        obtain ⟨hne0, htot0, hmem0⟩ := hok.2 e he
        refine ⟨by simp, ?_, ?_⟩
        · show e.2.total_quantity + q - ex.quantity = qsum _
          rw [hqsum]
          have hsplit : qsum e.2 = qsum ⟨0, a⟩ + ex.quantity + qsum ⟨0, b2⟩ := by
            simp only [qsum, hab, List.map_append, List.map_cons, List.sum_append,
              List.sum_cons]
            ring
          rw [hsplit]
          simp only [qsum, List.map_append, List.map_cons, List.sum_append, List.sum_cons]
          omega
        · intro x hx
          rcases List.mem_append.mp hx with h2 | h2
          · exact hmem0 x (hab ▸ List.mem_append_left _ h2)
          · rcases List.mem_cons.mp h2 with h3 | h3
            · rw [h3]
              obtain ⟨hxb, hxp, _⟩ := hmem0 ex hmem
              exact ⟨hxb, hxp, hq⟩
            · exact hmem0 x (hab ▸ List.mem_append_right _ (List.mem_cons_of_mem _ h3))
      · exact hok.2 e2 (heq ▸ List.mem_append_right _ (List.mem_cons_of_mem _ h))
  · rw [heq, sideIds_append, sideIds_append, sideIds_cons, sideIds_cons]
    have : (a ++ { ex with quantity := q } :: b2).map Order.order_id =
        e.2.orders.map Order.order_id := by
      rw [hab, List.map_append, List.map_append, List.map_cons, List.map_cons]
    rw [this]

theorem amend_book_wf_bids {st : OrderBook} {ex : Order} {q : Nat}
    {e : ℚ × PriceLevelData} (hwf : WF st) (he : e ∈ st.bids)
    (hmem : ex ∈ e.2.orders) (hq : 0 < q) :
    WF { st with bids := sideSetQty (modifyLevel st.bids ex.price (fun lv => ⟨lv.total_quantity + q - ex.quantity, lv.orders⟩)) ex.order_id q } ∧
    (noCross st → noCross { st with bids := sideSetQty (modifyLevel st.bids ex.price (fun lv => ⟨lv.total_quantity + q - ex.quantity, lv.orders⟩)) ex.order_id q }) := by
  obtain ⟨hokb, hoka, hnd, hlnd, hl1, hl2⟩ := hwf
  have hndb : (sideIds st.bids).Nodup := (List.nodup_append.mp hnd).1
  obtain ⟨hok', hids, pre, post, _, heq, hval⟩ :=
    amend_side_ok strictCmp_bid hokb hndb he hmem hq
  have hallEq : sideIds (sideSetQty (modifyLevel st.bids ex.price
      (fun lv => ⟨lv.total_quantity + q - ex.quantity, lv.orders⟩)) ex.order_id q) ++
      sideIds st.asks = allIds st := by
    rw [hids, allIds]
  constructor
  · refine ⟨hok', hoka, ?_, hlnd, ?_, ?_⟩
    · show (sideIds _ ++ sideIds _).Nodup
      rw [hallEq]
      exact hnd
    · intro i hi
      show i ∈ sideIds _ ++ sideIds _
      rw [hallEq]
      exact hl1 i hi
    · intro i hi
      have hi2 : i ∈ sideIds _ ++ sideIds _ := hi
      rw [hallEq] at hi2
      exact hl2 i hi2
  · intro hnc
    rcases hnc with h1 | h1 | h1
    · exfalso
      rw [h1] at he
      simp at he
    · exact Or.inr (Or.inl h1)
    · right
      right
      show get_best_bid _ < get_best_ask _
      have hbest : get_best_bid { st with bids := sideSetQty (modifyLevel st.bids ex.price (fun lv => ⟨lv.total_quantity + q - ex.quantity, lv.orders⟩)) ex.order_id q } = get_best_bid st := by
        rw [get_best_bid, get_best_bid]
        rw [hval, heq]
        obtain ⟨ep, el⟩ := e
        cases pre with
        | nil => rfl
        | cons p0 pre2 => rfl
      rw [hbest]
      exact h1

theorem amend_book_wf_asks {st : OrderBook} {ex : Order} {q : Nat}
    {e : ℚ × PriceLevelData} (hwf : WF st) (he : e ∈ st.asks)
    (hmem : ex ∈ e.2.orders) (hq : 0 < q) :
    WF { st with asks := sideSetQty (modifyLevel st.asks ex.price (fun lv => ⟨lv.total_quantity + q - ex.quantity, lv.orders⟩)) ex.order_id q } ∧
    (noCross st → noCross { st with asks := sideSetQty (modifyLevel st.asks ex.price (fun lv => ⟨lv.total_quantity + q - ex.quantity, lv.orders⟩)) ex.order_id q }) := by
  obtain ⟨hokb, hoka, hnd, hlnd, hl1, hl2⟩ := hwf
  have hnda : (sideIds st.asks).Nodup := (List.nodup_append.mp hnd).2.1
  obtain ⟨hok', hids, pre, post, _, heq, hval⟩ :=
    amend_side_ok strictCmp_ask hoka hnda he hmem hq
  have hallEq : sideIds st.bids ++ sideIds (sideSetQty (modifyLevel st.asks ex.price
      (fun lv => ⟨lv.total_quantity + q - ex.quantity, lv.orders⟩)) ex.order_id q) =
      allIds st := by
    rw [hids, allIds]
  constructor
  · refine ⟨hokb, hok', ?_, hlnd, ?_, ?_⟩
    · show (sideIds _ ++ sideIds _).Nodup
      rw [hallEq]
      exact hnd
    · intro i hi
      show i ∈ sideIds _ ++ sideIds _
      rw [hallEq]
      exact hl1 i hi
    · intro i hi
      have hi2 : i ∈ sideIds _ ++ sideIds _ := hi
      rw [hallEq] at hi2
      exact hl2 i hi2
  · intro hnc
    rcases hnc with h1 | h1 | h1
    · exact Or.inl h1
    · exfalso
      rw [h1] at he
      simp at he
    · right
      right
      show get_best_bid _ < get_best_ask _
      have hbest : get_best_ask { st with asks := sideSetQty (modifyLevel st.asks ex.price (fun lv => ⟨lv.total_quantity + q - ex.quantity, lv.orders⟩)) ex.order_id q } = get_best_ask st := by
        rw [get_best_ask, get_best_ask]
        rw [hval, heq]
        obtain ⟨ep, el⟩ := e
        cases pre with
        | nil => rfl
        | cons p0 pre2 => rfl
      rw [hbest]
      exact h1

theorem findOrderAny_some {st : OrderBook} {id : Nat} {ex : Order}
    (h : findOrderAny st id = some ex) :
    ex.order_id = id ∧
      ((∃ e ∈ st.bids, ex ∈ e.2.orders) ∨ (∃ e ∈ st.asks, ex ∈ e.2.orders)) := by
  rw [findOrderAny] at h
  cases hfb : findOrderInSide st.bids id with
  | some node =>
    rw [hfb] at h
    cases h
    obtain ⟨h1, e, he, hm⟩ := findOrderInSide_some hfb
    exact ⟨h1, Or.inl ⟨e, he, hm⟩⟩
  | none =>
    rw [hfb] at h
    obtain ⟨h1, e, he, hm⟩ := findOrderInSide_some h
    exact ⟨h1, Or.inr ⟨e, he, hm⟩⟩

theorem amend_order_wf {st : OrderBook} {id : Nat} {p : ℚ} {q : Nat} {m : Bool}
    {now : Nat} {r : OrderBook × Bool} (hwf : WF st)
    (h : amend_order st id p q m now = .ok r) :
    WF r.1 ∧ (m = true → noCross st → noCross r.1) := by
  rw [amend_order] at h
  by_cases hc : ¬ st.order_lookup.contains id = true
  · rw [if_pos hc] at h
    injection h with h2
    subst h2
    exact ⟨hwf, fun _ hnc => hnc⟩
  rw [if_neg hc] at h
  by_cases hq0 : q = 0
  · rw [if_pos hq0] at h
    simp at h
  rw [if_neg hq0] at h
  by_cases hp0 : p ≤ 0
  · rw [if_pos hp0] at h
    simp at h
  rw [if_neg hp0] at h
  cases hfa : findOrderAny st id with
  | none =>
    simp only [hfa] at h
    injection h with h2
    subst h2
    exact ⟨hwf, fun _ hnc => hnc⟩
  | some ex =>
    simp only [hfa] at h
    obtain ⟨hexid, hloc⟩ := findOrderAny_some hfa
    by_cases hpc : |ex.price - p| > amendEps
    · rw [if_pos hpc] at h
      by_cases hcf : (cancel_order st id).2 = false
      · rw [if_pos hcf] at h
        injection h with h2
        subst h2
        obtain ⟨hw, hnc⟩ := cancel_order_wf hwf
        exact ⟨hw, fun _ h2 => hnc h2⟩
      · rw [if_neg hcf] at h
        cases hadd : add_order (cancel_order st id).1
            { ex with price := p, quantity := q } m now with
        | error e =>
          rw [hadd] at h
          exact Except.noConfusion h
        | ok st2 =>
          rw [hadd] at h
          injection h with h2
          subst h2
          obtain ⟨hw2, _⟩ := add_order_wf (cancel_order_wf hwf).1 hadd
          by_cases hm : m = true
          · rw [if_pos hm]
            obtain ⟨hw3, hnc3⟩ := process_matching_ok hw2
            exact ⟨hw3, fun _ _ => hnc3⟩
          · rw [if_neg hm]
            exact ⟨hw2, fun hm2 => absurd hm2 hm⟩
    · rw [if_neg hpc] at h
      cases hbuy : ex.is_buy with
      | true =>
        simp only [if_pos hbuy] at h
        rw [← hexid] at h
        have hmemb : ∃ e ∈ st.bids, ex ∈ e.2.orders := by
          rcases hloc with h1 | h1
          · exact h1
          · obtain ⟨e, he, hm2⟩ := h1
            have := ((hwf.2.1.2 e he).2.2 ex hm2).1
            rw [hbuy] at this
            cases this
        obtain ⟨e, he, hmem⟩ := hmemb
        obtain ⟨hwA, hncA⟩ := amend_book_wf_bids hwf he hmem (Nat.pos_of_ne_zero hq0)
        injection h with h2
        subst h2
        by_cases hm : m = true
        · rw [if_pos hm]
          obtain ⟨hw3, hnc3⟩ := process_matching_ok hwA
          exact ⟨hw3, fun _ _ => hnc3⟩
        · rw [if_neg hm]
          exact ⟨hwA, fun hm2 => absurd hm2 hm⟩
      | false =>
        simp only [if_neg (show ¬ ex.is_buy = true by rw [hbuy]; exact Bool.false_ne_true)] at h
        rw [← hexid] at h
        have hmema : ∃ e ∈ st.asks, ex ∈ e.2.orders := by
          rcases hloc with h1 | h1
          · obtain ⟨e, he, hm2⟩ := h1
            have := ((hwf.1.2 e he).2.2 ex hm2).1
            rw [hbuy] at this
            cases this
          · exact h1
        obtain ⟨e, he, hmem⟩ := hmema
        obtain ⟨hwA, hncA⟩ := amend_book_wf_asks hwf he hmem (Nat.pos_of_ne_zero hq0)
        injection h with h2
        subst h2
        by_cases hm : m = true
        · rw [if_pos hm]
          obtain ⟨hw3, hnc3⟩ := process_matching_ok hwA
          exact ⟨hw3, fun _ _ => hnc3⟩
        · rw [if_neg hm]
          exact ⟨hwA, fun hm2 => absurd hm2 hm⟩

theorem wf_empty : WF emptyBook := by
  refine ⟨⟨?_, ?_⟩, ⟨?_, ?_⟩, ?_, ?_, ?_, ?_⟩ <;>
    simp [emptyBook, sideKeys, sideIds, allIds, SortedKeys]

theorem applyOp_wf {st : OrderBook} {op : BookOp} (hwf : WF st) :
    WF (applyOp st op) := by
  cases op with
  | add o m now =>
    rw [applyOp]
    cases hadd : add_order st o m now with
    | ok st2 => exact (add_order_wf hwf hadd).1
    | error e => exact hwf
  | cancel id =>
    rw [applyOp]
    exact (cancel_order_wf hwf).1
  | amend id p q m now =>
    rw [applyOp]
    cases hamend : amend_order st id p q m now with
    | ok r => exact (amend_order_wf hwf hamend).1
    | error e => exact hwf
  | matchOrders =>
    rw [applyOp, match_orders]
    exact (process_matching_ok hwf).1

theorem wf_reachable {st : OrderBook} (h : Reachable st) : WF st := by
  induction h with
  | empty => exact wf_empty
  | step st2 op _ ih => exact applyOp_wf ih

theorem reachableAuto_reachable {st : OrderBook} (h : ReachableAuto st) :
    Reachable st := by
  induction h with
  | empty => exact Reachable.empty
  | step st2 op _ _ ih => exact Reachable.step st2 op ih

theorem noCross_reachableAuto {st : OrderBook} (h : ReachableAuto st) :
    noCross st := by
  induction h with
  | empty => exact Or.inl rfl
  | step st2 op hauto hre ih =>
    have hwf : WF st2 := wf_reachable (reachableAuto_reachable hre)
    cases op with
    | add o m now =>
      rw [applyOp]
      cases hadd : add_order st2 o m now with
      | ok st3 => exact (add_order_wf hwf hadd).2 hauto
      | error e => exact ih
    | cancel id =>
      rw [applyOp]
      exact (cancel_order_wf hwf).2 ih
    | amend id p q m now =>
      rw [applyOp]
      cases hamend : amend_order st2 id p q m now with
      | ok r => exact (amend_order_wf hwf hamend).2 hauto ih
      | error e => exact ih
    | matchOrders =>
      rw [applyOp, match_orders]
      exact (process_matching_ok hwf).2

theorem execute_trade_trades (st : OrderBook) (b s : Order) (tq : Nat) :
    (execute_trade st b s tq).trades = st.trades ++ [Trade.mk tq
      (min b.price s.price) b.order_id s.order_id b.price s.price] := by
  rw [execute_trade]
  dsimp only
  by_cases h1 : b.quantity - tq = 0 <;> by_cases h2 : s.quantity - tq = 0 <;>
    simp only [h1, h2, if_pos, if_neg, if_true, if_false] <;> rfl

theorem matchLoop_trades : ∀ (n : Nat) (st : OrderBook),
    (∀ t ∈ st.trades, t.price = min t.buy_price t.sell_price) →
    ∀ t ∈ (matchLoop n st).trades, t.price = min t.buy_price t.sell_price := by
  intro n
  induction n with
  | zero =>
    intro st h
    rw [matchLoop]
    exact h
  | succ n ih =>
    intro st h
    cases hbids : st.bids with
    | nil =>
      have heq : matchLoop (n + 1) st = st := by
        rw [matchLoop]
        simp only [hbids]
      rw [heq]
      exact h
    | cons e bt =>
      cases hasks : st.asks with
      | nil =>
        have heq : matchLoop (n + 1) st = st := by
          rw [matchLoop]
          simp only [hbids, hasks]
        rw [heq]
        exact h
      | cons f at2 =>
        obtain ⟨bp, bl⟩ := e
        obtain ⟨ap, al⟩ := f
        by_cases hcross : bp < ap
        · have heq : matchLoop (n + 1) st = st := by
            rw [matchLoop]
            simp only [hbids, hasks, if_pos hcross]
          rw [heq]
          exact h
        · cases hbo : bl.orders with
          | nil =>
            have heq : matchLoop (n + 1) st = st := by
              rw [matchLoop]
              simp only [hbids, hasks, if_neg hcross, hbo]
            rw [heq]
            exact h
          | cons b brest =>
            cases hso : al.orders with
            | nil =>
              have heq : matchLoop (n + 1) st = st := by
                rw [matchLoop]
                simp only [hbids, hasks, if_neg hcross, hbo, hso]
              rw [heq]
              exact h
            | cons s srest =>
              rw [matchLoop_succ_cross hbids hasks hbo hso hcross]
              apply ih
              rw [execute_trade_trades]
              intro t ht
              rcases List.mem_append.mp ht with h5 | h5
              · exact h t h5
              · rw [List.mem_singleton.mp h5]

theorem cancel_order_frame (st : OrderBook) (id : Nat) :
    (cancel_order st id).1.trades = st.trades ∧
    (cancel_order st id).1.total_trades = st.total_trades ∧
    (cancel_order st id).1.total_volume = st.total_volume := by
  rw [cancel_order]
  by_cases hc : st.order_lookup.contains id = true
  · rw [if_pos hc]
    cases hfa : findOrderAny st id with
    | none => exact ⟨rfl, rfl, rfl⟩
    | some node =>
      simp only [hfa]
      by_cases hb : node.is_buy = true
      · rw [if_pos hb]
        exact ⟨rfl, rfl, rfl⟩
      · rw [if_neg hb]
        exact ⟨rfl, rfl, rfl⟩
  · rw [if_neg hc]
    exact ⟨rfl, rfl, rfl⟩

theorem process_matching_trades {st : OrderBook}
    (h : ∀ t ∈ st.trades, t.price = min t.buy_price t.sell_price) :
    ∀ t ∈ (process_matching st).trades, t.price = min t.buy_price t.sell_price :=
  matchLoop_trades _ _ h

theorem add_order_trades {st : OrderBook} {o : Order} {m : Bool} {now : Nat}
    {st2 : OrderBook} (h : add_order st o m now = .ok st2)
    (hok : ∀ t ∈ st.trades, t.price = min t.buy_price t.sell_price) :
    ∀ t ∈ st2.trades, t.price = min t.buy_price t.sell_price := by
  rw [add_order] at h
  by_cases hdup : st.order_lookup.contains o.order_id = true
  · rw [if_pos hdup] at h
    simp at h
  rw [if_neg hdup] at h
  by_cases hq0 : o.quantity = 0
  · rw [if_pos hq0] at h
    simp at h
  rw [if_neg hq0] at h
  by_cases hp0 : o.price ≤ 0
  · rw [if_pos hp0] at h
    simp at h
  rw [if_neg hp0] at h
  dsimp only at h
  injection h with h2
  subst h2
  have hst1 : ∀ t ∈ (if (if o.timestamp_ns = 0 then { o with timestamp_ns := now }
      else o).is_buy then
      { st with bids := (add_order_to_side bidCmp (if o.timestamp_ns = 0 then { o with timestamp_ns := now } else o) st.bids st.order_lookup).1, order_lookup := (add_order_to_side bidCmp (if o.timestamp_ns = 0 then { o with timestamp_ns := now } else o) st.bids st.order_lookup).2 }
    else
      { st with asks := (add_order_to_side askCmp (if o.timestamp_ns = 0 then { o with timestamp_ns := now } else o) st.asks st.order_lookup).1, order_lookup := (add_order_to_side askCmp (if o.timestamp_ns = 0 then { o with timestamp_ns := now } else o) st.asks st.order_lookup).2 }).trades,
      t.price = min t.buy_price t.sell_price := by
    by_cases hb : (if o.timestamp_ns = 0 then { o with timestamp_ns := now }
        else o).is_buy = true
    · rw [if_pos hb]
      exact hok
    · rw [if_neg hb]
      exact hok
  by_cases hm : m = true
  · rw [if_pos hm]
    exact process_matching_trades hst1
  · rw [if_neg hm]
    exact hst1

theorem amend_order_trades {st : OrderBook} {id : Nat} {p : ℚ} {q : Nat}
    {m : Bool} {now : Nat} {r : OrderBook × Bool}
    (h : amend_order st id p q m now = .ok r)
    (hok : ∀ t ∈ st.trades, t.price = min t.buy_price t.sell_price) :
    ∀ t ∈ r.1.trades, t.price = min t.buy_price t.sell_price := by
  rw [amend_order] at h
  by_cases hc : ¬ st.order_lookup.contains id = true
  · rw [if_pos hc] at h
    injection h with h2
    subst h2
    exact hok
  rw [if_neg hc] at h
  by_cases hq0 : q = 0
  · rw [if_pos hq0] at h
    simp at h
  rw [if_neg hq0] at h
  by_cases hp0 : p ≤ 0
  · rw [if_pos hp0] at h
    simp at h
  rw [if_neg hp0] at h
  cases hfa : findOrderAny st id with
  | none =>
    simp only [hfa] at h
    injection h with h2
    subst h2
    exact hok
  | some ex =>
    simp only [hfa] at h
    have hcanc : ∀ t ∈ (cancel_order st id).1.trades,
        t.price = min t.buy_price t.sell_price := by
      rw [(cancel_order_frame st id).1]
      exact hok
    by_cases hpc : |ex.price - p| > amendEps
    · rw [if_pos hpc] at h
      by_cases hcf : (cancel_order st id).2 = false
      · rw [if_pos hcf] at h
        injection h with h2
        subst h2
        exact hcanc
      · rw [if_neg hcf] at h
        cases hadd : add_order (cancel_order st id).1
            { ex with price := p, quantity := q } m now with
        | error e =>
          rw [hadd] at h
          exact Except.noConfusion h
        | ok st2 =>
          rw [hadd] at h
          injection h with h2
          subst h2
          have h3 := add_order_trades hadd hcanc
          by_cases hm : m = true
          · rw [if_pos hm]
            exact process_matching_trades h3
          · rw [if_neg hm]
            exact h3
    · rw [if_neg hpc] at h
      injection h with h2
      subst h2
      dsimp only
      by_cases hm : m = true
      · rw [if_pos hm]
        refine process_matching_trades ?_
        by_cases hb : ex.is_buy = true
        · rw [if_pos hb, if_pos hb]
          exact hok
        · rw [if_neg hb, if_neg hb]
          exact hok
      · rw [if_neg hm]
        by_cases hb : ex.is_buy = true
        · rw [if_pos hb, if_pos hb]
          exact hok
        · rw [if_neg hb, if_neg hb]
          exact hok

theorem applyOp_trades {st : OrderBook} {op : BookOp}
    (h : ∀ t ∈ st.trades, t.price = min t.buy_price t.sell_price) :
    ∀ t ∈ (applyOp st op).trades, t.price = min t.buy_price t.sell_price := by
  cases op with
  | add o m now =>
    rw [applyOp]
    cases hadd : add_order st o m now with
    | ok st2 => exact add_order_trades hadd h
    | error e => exact h
  | cancel id =>
    rw [applyOp]
    rw [(cancel_order_frame st id).1]
    exact h
  | amend id p q m now =>
    rw [applyOp]
    cases hamend : amend_order st id p q m now with
    | ok r => exact amend_order_trades hamend h
    | error e => exact h
  | matchOrders =>
    rw [applyOp, match_orders]
    exact process_matching_trades h

theorem reachable_trades {st : OrderBook} (h : Reachable st) :
    ∀ t ∈ st.trades, t.price = min t.buy_price t.sell_price := by
  induction h with
  | empty =>
    intro t ht
    exact absurd ht (List.not_mem_nil t)
  | step st op _ ih => exact applyOp_trades ih

theorem reachable_foldl {st : OrderBook} (h : Reachable st) (ops : List BookOp) :
    Reachable (ops.foldl applyOp st) := by
  induction ops generalizing st with
  | nil => exact h
  | cons op rest ih => exact ih (Reachable.step st op h)

theorem reachable_runOps (ops : List BookOp) : Reachable (runOps ops) :=
  reachable_foldl Reachable.empty ops

theorem reachableAuto_foldl {st : OrderBook} (h : ReachableAuto st)
    (ops : List BookOp) (hops : ∀ op ∈ ops, autoOp op) :
    ReachableAuto (ops.foldl applyOp st) := by
  induction ops generalizing st with
  | nil => exact h
  | cons op rest ih =>
    exact ih (ReachableAuto.step st op (hops op (List.mem_cons_self op rest)) h)
      (fun o ho => hops o (List.mem_cons_of_mem op ho))

theorem reachableAuto_runOps (ops : List BookOp) (hops : ∀ op ∈ ops, autoOp op) :
    ReachableAuto (runOps ops) :=
  reachableAuto_foldl ReachableAuto.empty ops hops

/-- C1: in every state reachable by public calls from a fresh book, every
trade the matching engine has executed (whether triggered by an insert or
amend with matching enabled or by an explicit match call) carries price
`min buy.price sell.price` of the two orders involved, the prices being
captured at trade time. -/
theorem C1_trade_price_is_min {st : OrderBook} (h : Reachable st) :
    ∀ t ∈ st.trades, t.price = min t.buy_price t.sell_price :=
  reachable_trades h

/-- Witness for C1: a concrete run (buy 100 at 100, then sell 50 at 99 with
matching on) emits one trade, priced at the resting bid‐vs‐incoming-ask
minimum 99. -/
theorem C1_trade_price_is_min_witness :
    (runOps [.add ⟨1, true, 100, 100, 1⟩ true 10,
             .add ⟨2, false, 99, 50, 2⟩ true 11]).trades =
      [Trade.mk 50 99 1 2 100 99] ∧
    ∀ t ∈ (runOps [.add ⟨1, true, 100, 100, 1⟩ true 10,
             .add ⟨2, false, 99, 50, 2⟩ true 11]).trades,
      t.price = min t.buy_price t.sell_price :=
  ⟨by with_unfolding_all decide,
   C1_trade_price_is_min (reachable_runOps
     [.add ⟨1, true, 100, 100, 1⟩ true 10, .add ⟨2, false, 99, 50, 2⟩ true 11])⟩

/-- C2 counterexample: the public insert call takes a `match_immediately`
flag; invoking it with matching disabled produces a reachable state whose
best bid (100) is at or above its best ask (99) with both sides
non-empty. -/
theorem C2_no_cross_counterexample :
    Reachable (runOps [.add ⟨1, true, 100, 10, 1⟩ false 0,
                       .add ⟨2, false, 99, 10, 2⟩ false 0]) ∧
    ¬ noCross (runOps [.add ⟨1, true, 100, 10, 1⟩ false 0,
                       .add ⟨2, false, 99, 10, 2⟩ false 0]) :=
  ⟨reachable_runOps _, by rw [noCross]; with_unfolding_all decide⟩

/-- C2 (amended): after any public operation invoked with auto-matching
kept enabled returns, either `best_bid < best_ask` or at least one book
side is empty, because any triggered matching runs to completion before
the operation returns. -/
theorem C2_no_cross_after_auto_calls {st : OrderBook} (h : ReachableAuto st) :
    noCross st :=
  noCross_reachableAuto h

/-- Witness for C2: a buy at 100 then a sell at 99, both with matching
enabled, reach a state satisfying the no-cross condition. -/
theorem C2_no_cross_after_auto_calls_witness :
    noCross (runOps [.add ⟨1, true, 100, 10, 1⟩ true 0,
                     .add ⟨2, false, 99, 10, 2⟩ true 0]) :=
  C2_no_cross_after_auto_calls (reachableAuto_runOps _ (by
    intro op hop
    rcases List.mem_cons.mp hop with h | h
    · rw [h]
      exact rfl
    · rw [List.mem_singleton.mp h]
      exact rfl))

theorem cancel_order_spec {st : OrderBook} {id : Nat} {node : Order}
    (hwf : WF st) (hfa : findOrderAny st id = some node) :
    ∃ lv, node.order_id = id ∧
      listFind (if node.is_buy then st.bids else st.asks) node.price = some lv ∧
      node ∈ lv.orders ∧ node.quantity ≤ lv.total_quantity ∧
      cancel_order st id =
        (if node.is_buy then
          ({ st with
             bids :=
               if removeById lv.orders id = [] then eraseLevel st.bids node.price
               else modifyLevel st.bids node.price
                 (fun _ => ⟨lv.total_quantity - node.quantity, removeById lv.orders id⟩),
             order_lookup := st.order_lookup.erase id }, true)
        else
          ({ st with
             asks :=
               if removeById lv.orders id = [] then eraseLevel st.asks node.price
               else modifyLevel st.asks node.price
                 (fun _ => ⟨lv.total_quantity - node.quantity, removeById lv.orders id⟩),
             order_lookup := st.order_lookup.erase id }, true)) := by
  obtain ⟨hid, hloc⟩ := findOrderAny_some hfa
  have hdisj : List.Disjoint (sideIds st.bids) (sideIds st.asks) :=
    (List.nodup_append.mp hwf.2.2.1).2.2
  rcases hloc with ⟨e, he, hm⟩ | ⟨e, he, hm⟩
  · have hbuy : node.is_buy = true := ((hwf.1.2 e he).2.2 node hm).1
    have his : id ∈ sideIds st.bids := hid ▸ mem_sideIds_of_mem he hm
    have hlkm : id ∈ st.order_lookup :=
      hwf.2.2.2.2.2 id (List.mem_append.mpr (Or.inl his))
    have hc : st.order_lookup.contains id = true := List.elem_iff.mpr hlkm
    obtain ⟨node2, lv, hn, _, hfind, hmem2, hqle, hres⟩ :=
      remove_side_spec strictCmp_bid hwf.1 hlkm his
    have hn2 : node2 = node := by
      rw [findOrderAny, hn] at hfa
      exact Option.some.inj hfa
    subst hn2
    refine ⟨lv, hid, ?_, hmem2, hqle, ?_⟩
    · rw [if_pos hbuy]
      exact hfind
    · rw [if_pos hbuy, cancel_order, if_pos hc]
      simp only [hfa]
      rw [if_pos hbuy, hres]
  · have hbuy : node.is_buy = false := ((hwf.2.1.2 e he).2.2 node hm).1
    have his : id ∈ sideIds st.asks := hid ▸ mem_sideIds_of_mem he hm
    have hlkm : id ∈ st.order_lookup :=
      hwf.2.2.2.2.2 id (List.mem_append.mpr (Or.inr his))
    have hc : st.order_lookup.contains id = true := List.elem_iff.mpr hlkm
    obtain ⟨node2, lv, hn, _, hfind, hmem2, hqle, hres⟩ :=
      remove_side_spec strictCmp_ask hwf.2.1 hlkm his
    have hfb : findOrderInSide st.bids id = none := by
      cases hfb2 : findOrderInSide st.bids id with
      | none => rfl
      | some n3 =>
        obtain ⟨hid3, e3, he3, hm3⟩ := findOrderInSide_some hfb2
        exact absurd his (hdisj (hid3 ▸ mem_sideIds_of_mem he3 hm3))
    have hnb : ¬ node.is_buy = true := by rw [hbuy]; exact Bool.false_ne_true
    have hn2 : node2 = node := by
      rw [findOrderAny, hfb, hn] at hfa
      exact Option.some.inj hfa
    subst hn2
    refine ⟨lv, hid, ?_, hmem2, hqle, ?_⟩
    · rw [if_neg hnb]
      exact hfind
    · rw [if_neg hnb, cancel_order, if_pos hc]
      simp only [hfa]
      rw [if_neg hnb, hres]

/-- C9: for an id resting in the book, `cancel_order` returns `true`,
removes exactly that order from its level's FIFO queue, decrements the
level's aggregate by the order's remaining quantity with the result
floored at zero, deletes the level if its queue becomes empty, and erases
the index entry, while the opposite side, the trade log and the
`total_trades`/`total_volume` statistics are untouched (cancel never
triggers matching); for an absent id it returns `false` and leaves the
book unchanged. -/
theorem C9_cancel_order_correct {st : OrderBook} {id : Nat} (hwf : WF st) :
    (order_exists st id = false → cancel_order st id = (st, false)) ∧
    (order_exists st id = true →
      ∃ node lv, findOrderAny st id = some node ∧ node.order_id = id ∧
        listFind (if node.is_buy then st.bids else st.asks) node.price = some lv ∧
        node ∈ lv.orders ∧
        (cancel_order st id).2 = true ∧
        (cancel_order st id).1.order_lookup = st.order_lookup.erase id ∧
        (cancel_order st id).1.trades = st.trades ∧
        (cancel_order st id).1.total_trades = st.total_trades ∧
        (cancel_order st id).1.total_volume = st.total_volume ∧
        (if node.is_buy then
            (cancel_order st id).1.asks = st.asks ∧
            (cancel_order st id).1.bids =
              (if removeById lv.orders id = [] then eraseLevel st.bids node.price
               else modifyLevel st.bids node.price
                 (fun _ => ⟨lv.total_quantity - node.quantity, removeById lv.orders id⟩))
          else
            (cancel_order st id).1.bids = st.bids ∧
            (cancel_order st id).1.asks =
              (if removeById lv.orders id = [] then eraseLevel st.asks node.price
               else modifyLevel st.asks node.price
                 (fun _ => ⟨lv.total_quantity - node.quantity, removeById lv.orders id⟩)))) := by
  constructor
  · intro hne
    have hc : ¬ st.order_lookup.contains id = true := by
      rw [order_exists] at hne
      rw [hne]
      exact Bool.false_ne_true
    rw [cancel_order, if_neg hc]
  · intro hex
    have hlkm : id ∈ st.order_lookup := List.elem_iff.mp hex
    have hall : id ∈ allIds st := hwf.2.2.2.2.1 id hlkm
    have hfa : ∃ node, findOrderAny st id = some node := by
      cases hfb : findOrderInSide st.bids id with
      | some n => exact ⟨n, by rw [findOrderAny, hfb]⟩
      | none =>
        cases hfa2 : findOrderInSide st.asks id with
        | some n => exact ⟨n, by rw [findOrderAny, hfb, hfa2]⟩
        | none =>
          exfalso
          rcases List.mem_append.mp hall with h | h
          · exact findOrderInSide_none hfb h
          · exact findOrderInSide_none hfa2 h
    obtain ⟨node, hfa⟩ := hfa
    obtain ⟨lv, hid, hfind, hmem, hqle, hspec⟩ := cancel_order_spec hwf hfa
    refine ⟨node, lv, hfa, hid, hfind, hmem, ?_⟩
    by_cases hb : node.is_buy = true
    · rw [if_pos hb] at hspec
      rw [hspec, if_pos hb]
      exact ⟨rfl, rfl, rfl, rfl, rfl, rfl, rfl⟩
    · rw [if_neg hb] at hspec
      rw [hspec, if_neg hb]
      exact ⟨rfl, rfl, rfl, rfl, rfl, rfl, rfl⟩

/-- Witness for C9: in the book holding one resting buy (id 1), cancelling
id 1 succeeds. -/
theorem C9_cancel_order_correct_witness :
    WF (runOps [.add ⟨1, true, 100, 10, 1⟩ true 0]) ∧
    order_exists (runOps [.add ⟨1, true, 100, 10, 1⟩ true 0]) 1 = true ∧
    (cancel_order (runOps [.add ⟨1, true, 100, 10, 1⟩ true 0]) 1).2 = true := by
  have hwf : WF (runOps [.add ⟨1, true, 100, 10, 1⟩ true 0]) :=
    wf_reachable (reachable_runOps [.add ⟨1, true, 100, 10, 1⟩ true 0])
  have hex : order_exists (runOps [.add ⟨1, true, 100, 10, 1⟩ true 0]) 1 = true := by
    with_unfolding_all decide
  obtain ⟨node, lv, hfa, hid, hfind, hmem, hflag, hrest⟩ :=
    (@C9_cancel_order_correct (runOps [.add ⟨1, true, 100, 10, 1⟩ true 0]) 1 hwf).2 hex
  exact ⟨hwf, hex, hflag⟩

/-- C3 counterexample: order 1 is inserted with timestamp 5; amending it to
price 101 while the wall clock reads 999 leaves its timestamp 5 — the
re-inserted order keeps the original timestamp rather than receiving a
fresh one (the insert path stamps only orders whose timestamp is 0). -/
theorem C3_fresh_timestamp_counterexample :
    findOrderAny (runOps [.add ⟨1, true, 100, 10, 5⟩ true 7,
                          .amend 1 101 10 true 999]) 1 =
      some ⟨1, true, 101, 10, 5⟩ ∧ (5 : Nat) ≠ 999 := by
  constructor
  · with_unfolding_all decide
  · decide

theorem add_side_tail {cmp : ℚ → ℚ → Bool} {isBuy : Bool} {side : Side}
    {lookup : List Nat} {o : Order} (hsc : StrictCmp cmp)
    (hok : SideOK cmp isBuy side) (hbuy : o.is_buy = isBuy) (hq : 0 < o.quantity) :
    ∃ lv, listFind (add_order_to_side cmp o side lookup).1 o.price = some lv ∧
      lv.orders = ((listFind side o.price).getD ⟨0, []⟩).orders ++ [o] := by
  have hsok := (@add_side_ok cmp isBuy side lookup o hsc hok hbuy hq).1
  have hkn := sortedKeys_nodup hsc hsok.1
  cases hfind : listFind side o.price with
  | some l0 =>
    obtain ⟨pre, post, heq, hnp, hnp2, hpre, hpost, hres⟩ :=
      add_side_found hsc hok.1 hfind
    refine ⟨⟨l0.total_quantity + o.quantity, l0.orders ++ [o]⟩, ?_, rfl⟩
    have hm : (o.price,
        (⟨l0.total_quantity + o.quantity, l0.orders ++ [o]⟩ : PriceLevelData)) ∈
        (add_order_to_side cmp o side lookup).1 := by
      rw [hres]
      exact List.mem_append.mpr (Or.inr (List.mem_cons_self _ _))
    exact listFind_of_mem_nodup hkn hm
  | none =>
    obtain ⟨pre, post, heq, hpre, hpost, hres⟩ := add_side_new hsc hok.1 hfind
    refine ⟨⟨o.quantity, [o]⟩, ?_, rfl⟩
    have hm : (o.price, (⟨o.quantity, [o]⟩ : PriceLevelData)) ∈
        (add_order_to_side cmp o side lookup).1 := by
      rw [hres]
      exact List.mem_append.mpr (Or.inr (List.mem_cons_self _ _))
    exact listFind_of_mem_nodup hkn hm

theorem add_order_false_spec {st : OrderBook} {o : Order} {now : Nat}
    (hwf : WF st) (hdup : ¬ st.order_lookup.contains o.order_id = true)
    (hq : o.quantity ≠ 0) (hp : ¬ o.price ≤ 0) (hts : o.timestamp_ns ≠ 0) :
    ∃ st2, add_order st o false now = Except.ok st2 ∧
      (if o.is_buy then st2.asks = st.asks else st2.bids = st.bids) ∧
      st2.trades = st.trades ∧
      ∃ lv, listFind (if o.is_buy then st2.bids else st2.asks) o.price = some lv ∧
        lv.orders =
          ((listFind (if o.is_buy then st.bids else st.asks) o.price).getD
            ⟨0, []⟩).orders ++ [o] := by
  have hr : (if o.timestamp_ns = 0 then { o with timestamp_ns := now } else o) = o :=
    if_neg hts
  by_cases hb : o.is_buy = true
  · obtain ⟨lv, hfind, hshape⟩ :=
      @add_side_tail bidCmp true st.bids st.order_lookup o strictCmp_bid hwf.1 hb
        (Nat.pos_of_ne_zero hq)
    refine ⟨{ st with
        bids := (add_order_to_side bidCmp o st.bids st.order_lookup).1,
        order_lookup := (add_order_to_side bidCmp o st.bids st.order_lookup).2 },
      ?_, ?_, rfl, lv, ?_, ?_⟩
    · rw [add_order, if_neg hdup, if_neg hq, if_neg hp]
      dsimp only
      rw [hr, if_pos hb]
      rfl
    · rw [if_pos hb]
    · rw [if_pos hb]
      exact hfind
    · rw [if_pos hb]
      exact hshape
  · obtain ⟨lv, hfind, hshape⟩ :=
      @add_side_tail askCmp false st.asks st.order_lookup o strictCmp_ask hwf.2.1
        (Bool.not_eq_true o.is_buy ▸ hb) (Nat.pos_of_ne_zero hq)
    refine ⟨{ st with
        asks := (add_order_to_side askCmp o st.asks st.order_lookup).1,
        order_lookup := (add_order_to_side askCmp o st.asks st.order_lookup).2 },
      ?_, ?_, rfl, lv, ?_, ?_⟩
    · rw [add_order, if_neg hdup, if_neg hq, if_neg hp]
      dsimp only
      rw [hr, if_neg hb]
      rfl
    · rw [if_neg hb]
    · rw [if_neg hb]
      exact hfind
    · rw [if_neg hb]
      exact hshape

/-- C3 (amended): amending a resting order to a different price (beyond the
fixed epsilon) behaves as cancel of the old order followed by insert of a
new order with the same id, the new price and quantity, and the original
timestamp (the insert path stamps a timestamp only for orders arriving
with timestamp 0); the re-inserted order sits at the tail of the new price
level's FIFO, losing its previous queue position. -/
theorem C3_price_amend_cancel_reinsert {st : OrderBook} {id : Nat} {p : ℚ}
    {q : Nat} {now : Nat} {ex : Order} (hwf : WF st)
    (hfa : findOrderAny st id = some ex) (hq : q ≠ 0) (hp : ¬ p ≤ 0)
    (hpc : |ex.price - p| > amendEps) (hts : ex.timestamp_ns ≠ 0) :
    (∀ m, amend_order st id p q m now =
      (add_order (cancel_order st id).1 { ex with price := p, quantity := q }
          m now).map
        (fun st2 => ((if m then process_matching st2 else st2), true))) ∧
    ∃ st2, add_order (cancel_order st id).1 { ex with price := p, quantity := q }
        false now = Except.ok st2 ∧
      amend_order st id p q false now = Except.ok (st2, true) ∧
      ∃ lv, listFind (if ex.is_buy then st2.bids else st2.asks) p = some lv ∧
        lv.orders.getLast? = some { ex with price := p, quantity := q } := by
  obtain ⟨hid, hloc⟩ := findOrderAny_some hfa
  have hcont : st.order_lookup.contains id = true := by
    refine List.elem_iff.mpr (hwf.2.2.2.2.2 id ?_)
    rcases hloc with ⟨e, he, hm⟩ | ⟨e, he, hm⟩
    · exact List.mem_append.mpr (Or.inl (hid ▸ mem_sideIds_of_mem he hm))
    · exact List.mem_append.mpr (Or.inr (hid ▸ mem_sideIds_of_mem he hm))
  obtain ⟨lv0, _, _, _, _, hspec⟩ := cancel_order_spec hwf hfa
  have hc2 : (cancel_order st id).2 = true := by
    by_cases hb : ex.is_buy = true
    · rw [if_pos hb] at hspec
      rw [hspec]
    · rw [if_neg hb] at hspec
      rw [hspec]
  have hcfalse : ¬ (cancel_order st id).2 = false := by
    rw [hc2]
    decide
  have hmap : ∀ m, amend_order st id p q m now =
      (add_order (cancel_order st id).1 { ex with price := p, quantity := q }
          m now).map
        (fun st2 => ((if m then process_matching st2 else st2), true)) := by
    intro m
    rw [amend_order, if_neg (by rw [hcont]; exact fun h2 => h2 rfl),
      if_neg hq, if_neg hp]
    simp only [hfa]
    rw [if_pos hpc]
    rw [if_neg hcfalse]
    cases hadd : add_order (cancel_order st id).1
        { ex with price := p, quantity := q } m now with
    | error e => rfl
    | ok st2 => rfl
  refine ⟨hmap, ?_⟩
  have hlk2 : (cancel_order st id).1.order_lookup = st.order_lookup.erase id := by
    by_cases hb : ex.is_buy = true
    · rw [if_pos hb] at hspec
      rw [hspec]
    · rw [if_neg hb] at hspec
      rw [hspec]
  have hwf2 : WF (cancel_order st id).1 := (cancel_order_wf hwf).1
  have hdup2 : ¬ (cancel_order st id).1.order_lookup.contains
      ({ ex with price := p, quantity := q } : Order).order_id = true := by
    intro hcc
    have hm2 : ex.order_id ∈ (cancel_order st id).1.order_lookup :=
      List.elem_iff.mp hcc
    rw [hlk2, hid] at hm2
    exact ((List.Nodup.mem_erase_iff hwf.2.2.2.1).mp hm2).1 rfl
  obtain ⟨st2, hadd, hframe, htr, lv, hfind, hshape⟩ :=
    add_order_false_spec hwf2 hdup2 hq hp hts
  refine ⟨st2, hadd, ?_, lv, hfind, ?_⟩
  · rw [hmap false, hadd]
    rfl
  · rw [hshape]
    exact List.getLast?_concat _

/-- Witness for C3: the book holding buy order 1 (price 100, timestamp 5);
amending it to price 101 at wall-clock 999 equals cancel plus re-insert of
⟨1, 101, 10⟩ carrying timestamp 5, at the tail of level 101. -/
theorem C3_price_amend_cancel_reinsert_witness :
    WF (runOps [.add ⟨1, true, 100, 10, 5⟩ true 7]) ∧
    ∃ st2, add_order (cancel_order (runOps [.add ⟨1, true, 100, 10, 5⟩ true 7]) 1).1
        ⟨1, true, 101, 10, 5⟩ false 999 = Except.ok st2 ∧
      amend_order (runOps [.add ⟨1, true, 100, 10, 5⟩ true 7]) 1 101 10 false 999 =
        Except.ok (st2, true) ∧
      ∃ lv, listFind (if true then st2.bids else st2.asks) 101 = some lv ∧
        lv.orders.getLast? = some ⟨1, true, 101, 10, 5⟩ := by
  have hwf : WF (runOps [.add ⟨1, true, 100, 10, 5⟩ true 7]) :=
    wf_reachable (reachable_runOps [.add ⟨1, true, 100, 10, 5⟩ true 7])
  have h := @C3_price_amend_cancel_reinsert
    (runOps [.add ⟨1, true, 100, 10, 5⟩ true 7]) 1 101 10 999
    ⟨1, true, 100, 10, 5⟩ hwf
    (show findOrderAny (runOps [.add ⟨1, true, 100, 10, 5⟩ true 7]) 1 =
      some ⟨1, true, 100, 10, 5⟩ by with_unfolding_all decide)
    (show (10 : Nat) ≠ 0 by decide) (show ¬ (101 : ℚ) ≤ 0 by decide)
    (show |(100 : ℚ) - 101| > amendEps by with_unfolding_all decide)
    (show (5 : Nat) ≠ 0 by decide)
  exact ⟨hwf, h.2⟩

/-- C4: in every state reachable between public calls, every price level on
either book side has `total_quantity` equal to the sum of the quantities
of the orders in its FIFO queue. -/
theorem C4_level_total_is_queue_sum {st : OrderBook} (h : Reachable st) :
    ∀ e ∈ st.bids ++ st.asks, e.2.total_quantity = qsum e.2 := by
  have hwf := wf_reachable h
  intro e he
  rcases List.mem_append.mp he with h2 | h2
  · exact (hwf.1.2 e h2).2.1
  · exact (hwf.2.1.2 e h2).2.1

/-- Witness for C4: a book holding two buys at price 100 (quantities 10 and
5); its level aggregates equal their queue sums. -/
theorem C4_level_total_is_queue_sum_witness :
    (runOps [.add ⟨1, true, 100, 10, 1⟩ true 0,
             .add ⟨2, true, 100, 5, 2⟩ true 0]).bids ≠ [] ∧
    ∀ e ∈ (runOps [.add ⟨1, true, 100, 10, 1⟩ true 0,
             .add ⟨2, true, 100, 5, 2⟩ true 0]).bids ++
          (runOps [.add ⟨1, true, 100, 10, 1⟩ true 0,
             .add ⟨2, true, 100, 5, 2⟩ true 0]).asks,
      e.2.total_quantity = qsum e.2 :=
  ⟨by with_unfolding_all decide,
   C4_level_total_is_queue_sum (reachable_runOps
     [.add ⟨1, true, 100, 10, 1⟩ true 0, .add ⟨2, true, 100, 5, 2⟩ true 0])⟩

/-- C5: in every state reachable between public calls, the order index
holds an id exactly when an order with that id rests on one of the two
book sides. -/
theorem C5_index_matches_sides {st : OrderBook} (h : Reachable st) :
    ∀ id, order_exists st id = true ↔ id ∈ allIds st := by
  have hwf := wf_reachable h
  intro id
  constructor
  · intro h2
    exact hwf.2.2.2.2.1 id (List.elem_iff.mp h2)
  · intro h2
    exact List.elem_iff.mpr (hwf.2.2.2.2.2 id h2)

/-- Witness for C5: in the book holding only order 1, the index holds id 1
and the equivalence instantiates there. -/
theorem C5_index_matches_sides_witness :
    order_exists (runOps [.add ⟨1, true, 100, 10, 1⟩ true 0]) 1 = true ∧
    (order_exists (runOps [.add ⟨1, true, 100, 10, 1⟩ true 0]) 1 = true ↔
      1 ∈ allIds (runOps [.add ⟨1, true, 100, 10, 1⟩ true 0])) :=
  ⟨by with_unfolding_all decide,
   C5_index_matches_sides (reachable_runOps [.add ⟨1, true, 100, 10, 1⟩ true 0]) 1⟩

/-- C6: every rejected operation is a no-op — duplicate-id insert,
zero-quantity insert, non-positive-price insert, zero-quantity amend and
non-positive-price amend fail with the corresponding typed error, cancel
and amend of an unknown id signal not-found via their boolean result, and
in each case the book state is exactly as before the call. -/
theorem C6_rejections_are_noops (st : OrderBook) (o : Order) (id : Nat)
    (p : ℚ) (q : Nat) (m : Bool) (now : Nat) :
    (st.order_lookup.contains o.order_id = true →
      add_order st o m now = Except.error BookError.DuplicateId ∧
      applyOp st (.add o m now) = st) ∧
    (st.order_lookup.contains o.order_id = false → o.quantity = 0 →
      add_order st o m now = Except.error BookError.InvalidQuantity ∧
      applyOp st (.add o m now) = st) ∧
    (st.order_lookup.contains o.order_id = false → o.quantity ≠ 0 → o.price ≤ 0 →
      add_order st o m now = Except.error BookError.InvalidPrice ∧
      applyOp st (.add o m now) = st) ∧
    (order_exists st id = false →
      cancel_order st id = (st, false) ∧
      amend_order st id p q m now = Except.ok (st, false) ∧
      applyOp st (.cancel id) = st ∧
      applyOp st (.amend id p q m now) = st) ∧
    (order_exists st id = true → q = 0 →
      amend_order st id p q m now = Except.error BookError.InvalidQuantity ∧
      applyOp st (.amend id p q m now) = st) ∧
    (order_exists st id = true → q ≠ 0 → p ≤ 0 →
      amend_order st id p q m now = Except.error BookError.InvalidPrice ∧
      applyOp st (.amend id p q m now) = st) := by
  refine ⟨?_, ?_, ?_, ?_, ?_, ?_⟩
  · intro hdup
    have h1 : add_order st o m now = Except.error BookError.DuplicateId := by
      rw [add_order, if_pos hdup]
    exact ⟨h1, by rw [applyOp, h1]⟩
  · intro hdup hq0
    have hnd : ¬ st.order_lookup.contains o.order_id = true := by
      rw [hdup]
      decide
    have h1 : add_order st o m now = Except.error BookError.InvalidQuantity := by
      rw [add_order, if_neg hnd, if_pos hq0]
    exact ⟨h1, by rw [applyOp, h1]⟩
  · intro hdup hq0 hp0
    have hnd : ¬ st.order_lookup.contains o.order_id = true := by
      rw [hdup]
      decide
    have h1 : add_order st o m now = Except.error BookError.InvalidPrice := by
      rw [add_order, if_neg hnd, if_neg hq0, if_pos hp0]
    exact ⟨h1, by rw [applyOp, h1]⟩
  · intro hne
    have hnc : ¬ st.order_lookup.contains id = true := by
      rw [order_exists] at hne
      rw [hne]
      decide
    have h1 : cancel_order st id = (st, false) := by
      rw [cancel_order, if_neg hnc]
    have h2 : amend_order st id p q m now = Except.ok (st, false) := by
      rw [amend_order, if_pos hnc]
    refine ⟨h1, h2, ?_, ?_⟩
    · rw [applyOp, h1]
    · rw [applyOp, h2]
  · intro hex hq0
    have hcc : ¬¬ st.order_lookup.contains id = true := by
      rw [order_exists] at hex
      rw [hex]
      decide
    have h1 : amend_order st id p q m now = Except.error BookError.InvalidQuantity := by
      rw [amend_order, if_neg hcc, if_pos hq0]
    exact ⟨h1, by rw [applyOp, h1]⟩
  · intro hex hq0 hp0
    have hcc : ¬¬ st.order_lookup.contains id = true := by
      rw [order_exists] at hex
      rw [hex]
      decide
    have h1 : amend_order st id p q m now = Except.error BookError.InvalidPrice := by
      rw [amend_order, if_neg hcc, if_neg hq0, if_pos hp0]
    exact ⟨h1, by rw [applyOp, h1]⟩

/-- Witness for C6: inserting a duplicate of resting order 1 fails with
`DuplicateId` and leaves the book exactly as it was. -/
theorem C6_rejections_are_noops_witness :
    (runOps [.add ⟨1, true, 100, 10, 1⟩ true 0]).order_lookup.contains 1 = true ∧
    add_order (runOps [.add ⟨1, true, 100, 10, 1⟩ true 0]) ⟨1, true, 50, 5, 2⟩ true 0 =
      Except.error BookError.DuplicateId ∧
    applyOp (runOps [.add ⟨1, true, 100, 10, 1⟩ true 0]) (.add ⟨1, true, 50, 5, 2⟩ true 0) =
      runOps [.add ⟨1, true, 100, 10, 1⟩ true 0] := by
  have hc : (runOps [.add ⟨1, true, 100, 10, 1⟩ true 0]).order_lookup.contains 1 = true := by
    with_unfolding_all decide
  have h := (C6_rejections_are_noops (runOps [.add ⟨1, true, 100, 10, 1⟩ true 0])
    ⟨1, true, 50, 5, 2⟩ 1 5 5 true 0).1 hc
  exact ⟨hc, h.1, h.2⟩

/-- C10 counterexample: in the reachable book holding only an ask at 101
(empty bid side), `get_spread` returns 101, not the sentinel zero. -/
theorem C10_spread_sentinel_counterexample :
    (runOps [.add ⟨1, false, 101, 5, 1⟩ true 0]).bids = [] ∧
    (runOps [.add ⟨1, false, 101, 5, 1⟩ true 0]).asks ≠ [] ∧
    get_spread (runOps [.add ⟨1, false, 101, 5, 1⟩ true 0]) = 101 ∧
    (101 : ℚ) ≠ 0 := by
  refine ⟨?_, ?_, ?_, ?_⟩
  · with_unfolding_all decide
  · with_unfolding_all decide
  · with_unfolding_all decide
  · decide

/-- C10 (amended): `get_spread` returns `best_ask - best_bid` where an
empty side contributes 0 in place of its best price: the result is 0 when
both sides are empty, but with exactly one side empty it returns the
populated side's best price (negated for a bid-only book), which a caller
must not read as a real spread without checking emptiness. -/
theorem C10_spread_empty_side (st : OrderBook) :
    get_spread st = get_best_ask st - get_best_bid st ∧
    (st.bids = [] → st.asks = [] → get_spread st = 0) ∧
    (st.bids = [] → get_spread st = get_best_ask st) ∧
    (st.asks = [] → get_spread st = - get_best_bid st) := by
  refine ⟨rfl, ?_, ?_, ?_⟩
  · intro hb ha
    rw [get_spread, get_best_ask, get_best_bid]
    simp only [hb, ha]
    norm_num
  · intro hb
    rw [get_spread, get_best_bid]
    simp only [hb]
    rw [sub_zero]
  · intro ha
    rw [get_spread, get_best_ask]
    simp only [ha]
    rw [zero_sub]

/-- Witness for C10: the ask-only book at 101 has an empty bid side and
spread equal to its best ask. -/
theorem C10_spread_empty_side_witness :
    (runOps [.add ⟨1, false, 101, 5, 1⟩ true 0]).bids = [] ∧
    get_spread (runOps [.add ⟨1, false, 101, 5, 1⟩ true 0]) =
      get_best_ask (runOps [.add ⟨1, false, 101, 5, 1⟩ true 0]) :=
  ⟨by with_unfolding_all decide,
   (C10_spread_empty_side (runOps [.add ⟨1, false, 101, 5, 1⟩ true 0])).2.2.1
     (by with_unfolding_all decide)⟩

/-- C8: FIFO discipline — inserting a resting order appends it at the tail
of its price level's queue, and each matching-loop iteration trades only
the two orders at the heads of the best bid and best ask levels' queues,
for the minimum of their quantities. -/
theorem C8_append_tail_consume_head {st : OrderBook} (hwf : WF st) :
    (∀ o now, ¬ st.order_lookup.contains o.order_id = true → o.quantity ≠ 0 →
      ¬ o.price ≤ 0 → o.timestamp_ns ≠ 0 →
      ∃ st2, add_order st o false now = Except.ok st2 ∧
        ∃ lv, listFind (if o.is_buy then st2.bids else st2.asks) o.price = some lv ∧
          lv.orders =
            ((listFind (if o.is_buy then st.bids else st.asks) o.price).getD
              ⟨0, []⟩).orders ++ [o]) ∧
    (∀ n bp bl bt ap al at2 b s brest srest,
      st.bids = (bp, bl) :: bt → st.asks = (ap, al) :: at2 →
      bl.orders = b :: brest → al.orders = s :: srest → ¬ bp < ap →
      matchLoop (n + 1) st =
        matchLoop n (execute_trade st b s (min b.quantity s.quantity))) := by
  constructor
  · intro o now hdup hq hp hts
    obtain ⟨st2, hadd, hfr, htr, lv, hfind, hshape⟩ :=
      add_order_false_spec hwf hdup hq hp hts
    exact ⟨st2, hadd, lv, hfind, hshape⟩
  · intro n bp bl bt ap al at2 b s brest srest hbids hasks hb hs hcross
    exact matchLoop_succ_cross hbids hasks hb hs hcross

/-- Witness for C8: in the crossed two-order book (bid 100, ask 99,
reachable with matching disabled), the first matching iteration trades the
two queue heads. -/
theorem C8_append_tail_consume_head_witness :
    WF (runOps [.add ⟨1, true, 100, 10, 1⟩ false 0,
                .add ⟨2, false, 99, 10, 2⟩ false 0]) ∧
    matchLoop 1 (runOps [.add ⟨1, true, 100, 10, 1⟩ false 0,
                .add ⟨2, false, 99, 10, 2⟩ false 0]) =
      matchLoop 0 (execute_trade (runOps [.add ⟨1, true, 100, 10, 1⟩ false 0,
                .add ⟨2, false, 99, 10, 2⟩ false 0])
        ⟨1, true, 100, 10, 1⟩ ⟨2, false, 99, 10, 2⟩
        (min (10 : Nat) 10)) := by
  have hwf : WF (runOps [.add ⟨1, true, 100, 10, 1⟩ false 0,
      .add ⟨2, false, 99, 10, 2⟩ false 0]) :=
    wf_reachable (reachable_runOps [.add ⟨1, true, 100, 10, 1⟩ false 0,
      .add ⟨2, false, 99, 10, 2⟩ false 0])
  refine ⟨hwf, ?_⟩
  exact (C8_append_tail_consume_head hwf).2 0 100 ⟨10, [⟨1, true, 100, 10, 1⟩]⟩ []
    99 ⟨10, [⟨2, false, 99, 10, 2⟩]⟩ [] ⟨1, true, 100, 10, 1⟩ ⟨2, false, 99, 10, 2⟩ [] []
    (by with_unfolding_all decide) (by with_unfolding_all decide)
    (by decide) (by decide) (by decide)

theorem matchLoop_noCross {st : OrderBook} (h : noCross st) (n : Nat) :
    matchLoop n st = st := by
  cases n with
  | zero => rfl
  | succ k =>
    cases hbids : st.bids with
    | nil =>
      rw [matchLoop]
      simp only [hbids]
    | cons e bt =>
      cases hasks : st.asks with
      | nil =>
        rw [matchLoop]
        simp only [hbids, hasks]
      | cons f at2 =>
        obtain ⟨bp, bl⟩ := e
        obtain ⟨ap, al⟩ := f
        have hlt : bp < ap := by
          rcases h with h1 | h1 | h1
          · rw [hbids] at h1
            exact absurd h1 (List.cons_ne_nil _ _)
          · rw [hasks] at h1
            exact absurd h1 (List.cons_ne_nil _ _)
          · rw [get_best_bid, get_best_ask] at h1
            simp only [hbids, hasks] at h1
            exact h1
        rw [matchLoop]
        simp only [hbids, hasks, if_pos hlt]

theorem process_matching_noCross {st : OrderBook} (h : noCross st) :
    process_matching st = st :=
  matchLoop_noCross h _

theorem get_best_bid_shape {st1 st2 : OrderBook} {pre post : Side}
    {k : ℚ} {lv1 lv2 : PriceLevelData}
    (h1 : st1.bids = pre ++ (k, lv1) :: post)
    (h2 : st2.bids = pre ++ (k, lv2) :: post) :
    get_best_bid st2 = get_best_bid st1 := by
  cases pre with
  | nil =>
    rw [get_best_bid, get_best_bid]
    simp only [h1, h2, List.nil_append]
  | cons ph pt =>
    obtain ⟨php, phl⟩ := ph
    rw [get_best_bid, get_best_bid]
    simp only [h1, h2, List.cons_append]

theorem get_best_ask_shape {st1 st2 : OrderBook} {pre post : Side}
    {k : ℚ} {lv1 lv2 : PriceLevelData}
    (h1 : st1.asks = pre ++ (k, lv1) :: post)
    (h2 : st2.asks = pre ++ (k, lv2) :: post) :
    get_best_ask st2 = get_best_ask st1 := by
  cases pre with
  | nil =>
    rw [get_best_ask, get_best_ask]
    simp only [h1, h2, List.nil_append]
  | cons ph pt =>
    obtain ⟨php, phl⟩ := ph
    rw [get_best_ask, get_best_ask]
    simp only [h1, h2, List.cons_append]

theorem amend_side_shape {cmp : ℚ → ℚ → Bool} {isBuy : Bool} {side : Side}
    {ex : Order} {q : Nat} (hsc : StrictCmp cmp) (hok : SideOK cmp isBuy side)
    (hnd : (sideIds side).Nodup) {e : ℚ × PriceLevelData}
    (he : e ∈ side) (hmem : ex ∈ e.2.orders) :
    ∃ pre post a b, side = pre ++ e :: post ∧ e.2.orders = a ++ ex :: b ∧
      sideSetQty (modifyLevel side ex.price
        (fun lv => ⟨lv.total_quantity + q - ex.quantity, lv.orders⟩)) ex.order_id q =
        pre ++ (e.1, ⟨e.2.total_quantity + q - ex.quantity,
          a ++ { ex with quantity := q } :: b⟩) :: post := by
  obtain ⟨hp, hbuy, hqpos, hfind⟩ := order_loc hsc hok he hmem
  obtain ⟨pre, post, heq, hpre, hpost, hnp, hnp2⟩ :=
    sorted_mem_split hsc hok.1
      (listFind_mem (show listFind side e.1 = some e.2 from hp ▸ hfind))
  have hlevnd : (e.2.orders.map Order.order_id).Nodup := by
    have hx : sideIds side =
        sideIds pre ++ (e.2.orders.map Order.order_id ++ sideIds post) := by
      rw [heq, sideIds_append, sideIds_cons]
    rw [hx] at hnd
    exact ((List.nodup_append.mp (List.nodup_append.mp hnd).2.1)).1
  obtain ⟨a, b2, hab, hset, hna, hnb⟩ := setOrderQty_split hmem rfl hlevnd
  have hprend : ex.order_id ∉ sideIds pre := by
    have hx : sideIds side =
        sideIds pre ++ (e.2.orders.map Order.order_id ++ sideIds post) := by
      rw [heq, sideIds_append, sideIds_cons]
    rw [hx] at hnd
    intro hc
    exact (List.nodup_append.mp hnd).2.2 hc
      (List.mem_append_left _ (hab ▸ (by
        rw [List.map_append, List.map_cons]
        exact List.mem_append_right _ (List.mem_cons_self _ _))))
  have hpostnd : ex.order_id ∉ sideIds post := by
    have hx : sideIds side =
        sideIds pre ++ (e.2.orders.map Order.order_id ++ sideIds post) := by
      rw [heq, sideIds_append, sideIds_cons]
    rw [hx] at hnd
    intro hc
    have h2 := (List.nodup_append.mp (List.nodup_append.mp hnd).2.1).2.2
    exact h2 (hab ▸ (by
        rw [List.map_append, List.map_cons]
        exact List.mem_append_right _ (List.mem_cons_self _ _))) hc
  have hmod : modifyLevel side ex.price
      (fun lv => (⟨lv.total_quantity + q - ex.quantity, lv.orders⟩ : PriceLevelData)) =
      pre ++ (e.1, ⟨e.2.total_quantity + q - ex.quantity, e.2.orders⟩) :: post := by
    rw [hp, heq]
    rw [show (e : ℚ × PriceLevelData) = (e.1, e.2) from rfl, modifyLevel_split hnp hnp2]
  refine ⟨pre, post, a, b2, heq, hab, ?_⟩
  rw [hmod, sideSetQty, List.map_append, List.map_cons]
  have h1 : sideSetQty pre ex.order_id q = pre := sideSetQty_of_not_mem hprend
  have h2 : sideSetQty post ex.order_id q = post := sideSetQty_of_not_mem hpostnd
  rw [sideSetQty] at h1 h2
  rw [h1, h2]
  have h3 : setOrderQty e.2.orders ex.order_id q = a ++ { ex with quantity := q } :: b2 :=
    hset
  rw [show setOrderQty (e.1, (⟨e.2.total_quantity + q - ex.quantity, e.2.orders⟩ :
    PriceLevelData)).2.orders ex.order_id q = setOrderQty e.2.orders ex.order_id q
    from rfl] at *
  simp only [h3]


/-- C7: amending a resting order with the price unchanged (within the
fixed epsilon) rewrites only that order's quantity in place and adjusts
its level's aggregate by the signed delta; the order keeps its position
between its queue neighbours and its timestamp, and every other level,
the opposite side, the index, the trade log and the statistics are
unchanged. -/
theorem C7_same_price_amend_in_place {st : OrderBook} {id : Nat} {p : ℚ}
    {q : Nat} {m : Bool} {now : Nat} {ex : Order} (hwf : WF st) (hnc : noCross st)
    (hfa : findOrderAny st id = some ex) (hq : q ≠ 0) (hp : ¬ p ≤ 0)
    (hpc : ¬ |ex.price - p| > amendEps) :
    ∃ st', amend_order st id p q m now = Except.ok (st', true) ∧
      st'.order_lookup = st.order_lookup ∧
      st'.trades = st.trades ∧
      st'.total_trades = st.total_trades ∧
      st'.total_volume = st.total_volume ∧
      (if ex.is_buy then st'.asks = st.asks else st'.bids = st.bids) ∧
      ∃ pre post lv a b,
        (if ex.is_buy then st.bids else st.asks) = pre ++ (ex.price, lv) :: post ∧
        lv.orders = a ++ ex :: b ∧
        (if ex.is_buy then st'.bids else st'.asks) =
          pre ++ (ex.price, ⟨lv.total_quantity + q - ex.quantity,
            a ++ { ex with quantity := q } :: b⟩) :: post := by
  obtain ⟨hid, hloc⟩ := findOrderAny_some hfa
  have hcont : st.order_lookup.contains id = true := by
    refine List.elem_iff.mpr (hwf.2.2.2.2.2 id ?_)
    rcases hloc with ⟨e, he, hm⟩ | ⟨e, he, hm⟩
    · exact List.mem_append.mpr (Or.inl (hid ▸ mem_sideIds_of_mem he hm))
    · exact List.mem_append.mpr (Or.inr (hid ▸ mem_sideIds_of_mem he hm))
  by_cases hb : ex.is_buy = true
  · have hlocb : ∃ e ∈ st.bids, ex ∈ e.2.orders := by
      rcases hloc with h1 | ⟨e, he, hm⟩
      · exact h1
      · exact absurd (((hwf.2.1.2 e he).2.2 ex hm).1) (by rw [hb]; decide)
    obtain ⟨e, he, hm⟩ := hlocb
    have hndb : (sideIds st.bids).Nodup := (List.nodup_append.mp hwf.2.2.1).1
    obtain ⟨pre, post, a, b2, heq, hab, hval⟩ :=
      @amend_side_shape bidCmp true st.bids ex q strictCmp_bid hwf.1 hndb e he hm
    have hpx : ex.price = e.1 := (order_loc strictCmp_bid hwf.1 he hm).1
    obtain ⟨A, hA⟩ : ∃ A : OrderBook, A = { st with
        bids := (sideSetQty (modifyLevel st.bids ex.price (fun lv =>
          ⟨lv.total_quantity + q - ex.quantity, lv.orders⟩)) ex.order_id q) } := ⟨_, rfl⟩
    have hamend : amend_order st id p q m now =
        Except.ok ((if m then process_matching A else A), true) := by
      rw [amend_order, if_neg (by rw [hcont]; exact fun h2 => h2 rfl),
        if_neg hq, if_neg hp]
      simp only [hfa]
      rw [if_neg hpc, if_pos hb, if_pos hb, hA, ← hid]
    have h1 : st.bids = pre ++ (e.1, e.2) :: post := heq
    have h2 : A.bids = pre ++ (e.1, ⟨e.2.total_quantity + q - ex.quantity,
        a ++ { ex with quantity := q } :: b2⟩) :: post := by
      rw [hA]
      exact hval
    have hncX : noCross A := by
      rcases hnc with h3 | h3 | h3
      · rw [h3] at h1
        exact ((List.cons_ne_nil _ _) (List.append_eq_nil.mp h1.symm).2).elim
      · refine Or.inr (Or.inl ?_)
        rw [hA]
        exact h3
      · refine Or.inr (Or.inr ?_)
        rw [get_best_bid_shape h1 h2]
        have h4 : get_best_ask A = get_best_ask st := by rw [hA]; rfl
        rw [h4]
        exact h3
    have hifm : (if m then process_matching A else A) = A := by
      by_cases hm2 : m = true
      · rw [if_pos hm2]
        exact process_matching_noCross hncX
      · rw [if_neg hm2]
    refine ⟨A, by rw [hamend, hifm], by rw [hA], by rw [hA], by rw [hA],
      by rw [hA], by rw [if_pos hb, hA], pre, post, e.2, a, b2, ?_, hab, ?_⟩
    · rw [if_pos hb, hpx]
      exact heq
    · rw [if_pos hb]
      nth_rewrite 1 [hpx]
      exact h2
  · have hloca : ∃ e ∈ st.asks, ex ∈ e.2.orders := by
      rcases hloc with ⟨e, he, hm⟩ | h1
      · exact absurd (((hwf.1.2 e he).2.2 ex hm).1) hb
      · exact h1
    obtain ⟨e, he, hm⟩ := hloca
    have hnda : (sideIds st.asks).Nodup := (List.nodup_append.mp hwf.2.2.1).2.1
    obtain ⟨pre, post, a, b2, heq, hab, hval⟩ :=
      @amend_side_shape askCmp false st.asks ex q strictCmp_ask hwf.2.1 hnda e he hm
    have hpx : ex.price = e.1 := (order_loc strictCmp_ask hwf.2.1 he hm).1
    obtain ⟨A, hA⟩ : ∃ A : OrderBook, A = { st with
        asks := (sideSetQty (modifyLevel st.asks ex.price (fun lv =>
          ⟨lv.total_quantity + q - ex.quantity, lv.orders⟩)) ex.order_id q) } := ⟨_, rfl⟩
    have hamend : amend_order st id p q m now =
        Except.ok ((if m then process_matching A else A), true) := by
      rw [amend_order, if_neg (by rw [hcont]; exact fun h2 => h2 rfl),
        if_neg hq, if_neg hp]
      simp only [hfa]
      rw [if_neg hpc, if_neg hb, if_neg hb, hA, ← hid]
    have h1 : st.asks = pre ++ (e.1, e.2) :: post := heq
    have h2 : A.asks = pre ++ (e.1, ⟨e.2.total_quantity + q - ex.quantity,
        a ++ { ex with quantity := q } :: b2⟩) :: post := by
      rw [hA]
      exact hval
    have hncX : noCross A := by
      rcases hnc with h3 | h3 | h3
      · refine Or.inl ?_
        rw [hA]
        exact h3
      · rw [h3] at h1
        exact ((List.cons_ne_nil _ _) (List.append_eq_nil.mp h1.symm).2).elim
      · refine Or.inr (Or.inr ?_)
        rw [get_best_ask_shape h1 h2]
        have h4 : get_best_bid A = get_best_bid st := by rw [hA]; rfl
        rw [h4]
        exact h3
    have hifm : (if m then process_matching A else A) = A := by
      by_cases hm2 : m = true
      · rw [if_pos hm2]
        exact process_matching_noCross hncX
      · rw [if_neg hm2]
    refine ⟨A, by rw [hamend, hifm], by rw [hA], by rw [hA], by rw [hA],
      by rw [hA], by rw [if_neg hb, hA], pre, post, e.2, a, b2, ?_, hab, ?_⟩
    · rw [if_neg hb, hpx]
      exact heq
    · rw [if_neg hb]
      nth_rewrite 1 [hpx]
      exact h2

set_option maxRecDepth 40000

/-- Witness for C7 (scenario D): after buys id 1 (100@100) and id 2
(200@100), amending id 1 to quantity 500 at price 100 yields the top-bid
aggregate 700 with id 1 still queued before id 2. -/
theorem C7_same_price_amend_in_place_witness :
    WF (runOps [.add ⟨1, true, 100, 100, 1⟩ true 0,
                .add ⟨2, true, 100, 200, 2⟩ true 0]) ∧
    (applyOp (runOps [.add ⟨1, true, 100, 100, 1⟩ true 0,
                .add ⟨2, true, 100, 200, 2⟩ true 0]) (.amend 1 100 500 true 9)).bids =
      [(100, ⟨700, [⟨1, true, 100, 500, 1⟩, ⟨2, true, 100, 200, 2⟩]⟩)] ∧
    ∃ st', amend_order (runOps [.add ⟨1, true, 100, 100, 1⟩ true 0,
                .add ⟨2, true, 100, 200, 2⟩ true 0]) 1 100 500 true 9 =
        Except.ok (st', true) ∧
      st'.order_lookup = (runOps [.add ⟨1, true, 100, 100, 1⟩ true 0,
                .add ⟨2, true, 100, 200, 2⟩ true 0]).order_lookup ∧
      st'.trades = (runOps [.add ⟨1, true, 100, 100, 1⟩ true 0,
                .add ⟨2, true, 100, 200, 2⟩ true 0]).trades := by
  have hwf : WF (runOps [.add ⟨1, true, 100, 100, 1⟩ true 0,
      .add ⟨2, true, 100, 200, 2⟩ true 0]) :=
    wf_reachable (reachable_runOps [.add ⟨1, true, 100, 100, 1⟩ true 0,
      .add ⟨2, true, 100, 200, 2⟩ true 0])
  have hnc : noCross (runOps [.add ⟨1, true, 100, 100, 1⟩ true 0,
      .add ⟨2, true, 100, 200, 2⟩ true 0]) :=
    Or.inr (Or.inl (by with_unfolding_all decide))
  obtain ⟨st', ha1, ha2, ha3, _⟩ :=
    @C7_same_price_amend_in_place
      (runOps [.add ⟨1, true, 100, 100, 1⟩ true 0,
               .add ⟨2, true, 100, 200, 2⟩ true 0])
      1 100 500 true 9 ⟨1, true, 100, 100, 1⟩ hwf hnc
      (by with_unfolding_all decide)
      (show (500 : Nat) ≠ 0 by decide)
      (show ¬ (100 : ℚ) ≤ 0 by decide)
      (show ¬ |(100 : ℚ) - 100| > amendEps by with_unfolding_all decide)
  exact ⟨hwf, by with_unfolding_all decide, st', ha1, ha2, ha3⟩
